import Mathlib

/-!
Verification of the two-pass flight-CSV sampling pipeline
(`process_flight_data.py`): a discovery pass (`find_target_flight_ids`)
that streams files in chunks and accumulates distinct flight identifiers
per target aircraft type until a per-type quota is met, and a collection
pass (`collect_flight_data`) that re-streams the files and gathers every
row whose flight identifier was discovered, finally sorting by
(type, flight_id).

Modelling choices:
* A CSV cell is `Option String`; `none` models a missing value (pandas NaN).
  pandas hash-based membership (`isin`) treats NaN as equal to NaN, so plain
  equality on `Option String` models cell comparison in `isin`.
* A file is its full list of rows plus an optional failure point
  `failAfter = some k`: the reader yields the first `k` rows (in chunks) and
  then raises, which the source catches per file (`except ... continue`);
  `some 0` models a file that cannot be opened at all, `none` a file that
  reads to the end.  In real executions `k` is a multiple of the chunk size
  (pandas yields only complete chunks before a mid-stream parse error).
* Python's `set` has no specified iteration order (string hashing is
  randomized per process), so the truncation `list(found)[:quota]` is
  modelled with an enumeration oracle `eo : List Cell → List Cell`
  standing for the set iteration order; any run of the program corresponds
  to some oracle that permutes its argument (`PermOracle`).
* `sort_values(['type', 'flight_id'])` uses a stable lexicographic sort
  (NumPy lexsort) with NaN placed last in each key, modelled by
  `List.mergeSort` with the boolean order `rowLe`.
-/

namespace FlightData

/-- A CSV cell: `none` models a missing value (pandas NaN). -/
abbrev Cell := Option String

/-- One track record: the `type` and `flight_id` columns drive the
pipeline; `payload` stands for all remaining telemetry columns (and lets
distinct source rows with equal keys be told apart). -/
structure Row where
  type : Cell
  flight_id : Cell
  payload : Nat
deriving DecidableEq

/-- An input CSV file: its full content `rows`, and an optional failure
point.  `failAfter = some k` means the streaming reader yields the first
`k` rows and then raises (`some 0`: the file cannot be opened);
`none` means the file is read to the end. -/
structure CsvFile where
  rows : List Row
  failAfter : Option Nat
deriving DecidableEq

/-- The rows actually yielded by the chunked reader before any failure. -/
def CsvFile.yielded (f : CsvFile) : List Row :=
  match f.failAfter with
  | none => f.rows
  | some k => f.rows.take k

/-- Fuel-driven worker for `chunksOf` (structural recursion on the fuel so
that the kernel can evaluate it; the fuel is always at least the list
length, so the first branch is never taken on the intended calls). -/
def chunksOfAux (n : Nat) : Nat → List Row → List (List Row)
  | 0, _ => []
  | _, [] => []
  | fuel + 1, x :: xs => (x :: xs.take (n - 1)) :: chunksOfAux n fuel (xs.drop (n - 1))

/-- Split a row stream into consecutive chunks of `n` rows
(`pd.read_csv(..., chunksize=n)`); the last chunk may be shorter.
A chunk size of `0` degenerates to chunks of one row (the source requires
a positive chunk size). -/
def chunksOf (n : Nat) (l : List Row) : List (List Row) :=
  chunksOfAux n l.length l

/-- The discovered identifier map `found_flights` as an association list
from aircraft type to the list of discovered flight identifiers (the list
is the Python set's contents; insertion order is kept for bookkeeping). -/
abbrev FoundMap := List (String × List Cell)

/-- Look up the identifier set of a type (`found_flights[t]`, defaulting
to the empty set as `defaultdict(set)` does). -/
def lookupIds : FoundMap → String → List Cell
  | [], _ => []
  | (k, v) :: rest, t => if k = t then v else lookupIds rest t

/-- Write the identifier set of a type (`found_flights[t] = v`), creating
the entry at the end if absent. -/
def updateAssoc : FoundMap → String → List Cell → FoundMap
  | [], t, v => [(t, v)]
  | (k, w) :: rest, t, v =>
    if k = t then (t, v) :: rest else (k, w) :: updateAssoc rest t v

/-- Set union `found_flights[t].update(new_flight_ids)`: append the
members of `new` that are not already present. -/
def insertIds (cur new : List Cell) : List Cell :=
  cur ++ new.filter (fun x => decide (x ∉ cur))

/-- The mutable state of the discovery pass: the accumulated map
`found_flights` and the working set `types_needed`. -/
structure ScanState where
  found : FoundMap
  needed : List String
deriving DecidableEq

/-- The rows of aircraft type `t` in a row list
(`filtered_chunk[filtered_chunk['type'] == aircraft_type]`; a missing
type matches no type label). -/
def typeRowsIn (t : String) (l : List Row) : List Row :=
  l.filter (fun r => decide (r.type = some t))

/-- The body of the per-type loop of the discovery pass
(`for aircraft_type in types_needed.copy(): ...`): collect the distinct
flight identifiers of type `t` in the filtered chunk, union them into the
accumulated set, and on reaching the quota truncate the set to `quota`
elements in set-iteration order (`list(found)[:quota]`) and drop `t`
from `types_needed`. -/
def stepType (quota : Nat) (eo : List Cell → List Cell) (filtered : List Row)
    (st : ScanState) (t : String) : ScanState :=
  let typeRows := typeRowsIn t filtered
  if typeRows.isEmpty then st
  else
    let newIds := (typeRows.map (·.flight_id)).dedup
    let cur := insertIds (lookupIds st.found t) newIds
    if quota ≤ cur.length then
      { found := updateAssoc st.found t ((eo cur).take quota),
        needed := st.needed.erase t }
    else
      { found := updateAssoc st.found t cur, needed := st.needed }

/-- Process one chunk of the discovery pass: filter the chunk to rows
whose type is still needed (`chunk['type'].isin(types_needed)`; a missing
type never matches), skip an empty filtered chunk, otherwise run the
per-type loop over a copy of `types_needed`. -/
def processChunk (quota : Nat) (eo : List Cell → List Cell)
    (st : ScanState) (chunk : List Row) : ScanState :=
  let filtered := chunk.filter (fun r =>
    match r.type with
    | some t => decide (t ∈ st.needed)
    | none => false)
  if filtered.isEmpty then st
  else st.needed.foldl (stepType quota eo filtered) st

/-- Stream one file of the discovery pass chunk by chunk; a failure after
the yielded rows is caught (`except ... continue`), so the state reached
on the yielded prefix is kept. -/
def scanFile (quota cs : Nat) (eo : List Cell → List Cell)
    (st : ScanState) (f : CsvFile) : ScanState :=
  (chunksOf cs f.yielded).foldl (processChunk quota eo) st

/-- The file loop of the discovery pass, also recording which files are
opened: before each file, exit if `types_needed` is empty. -/
def scanFiles (quota cs : Nat) (eo : List Cell → List Cell) :
    List CsvFile → ScanState → ScanState × List CsvFile
  | [], st => (st, [])
  | f :: fs, st =>
    if st.needed.isEmpty then (st, [])
    else
      let res := scanFiles quota cs eo fs (scanFile quota cs eo st f)
      (res.1, f :: res.2)

/-- The initial scan state: empty map, `types_needed = set(target_types)`. -/
def initState (target_types : List String) : ScanState :=
  { found := [], needed := target_types.dedup }

/-- Pass 1, `find_target_flight_ids`: scan the files in order and return
the discovered identifier map. -/
def find_target_flight_ids (files : List CsvFile) (target_types : List String)
    (quota cs : Nat) (eo : List Cell → List Cell) : FoundMap :=
  (scanFiles quota cs eo files (initState target_types)).1.found

/-- The files opened by the discovery pass (reached the `pd.read_csv`
call rather than being cut off by the early exit). -/
def discoveryOpened (files : List CsvFile) (target_types : List String)
    (quota cs : Nat) (eo : List Cell → List Cell) : List CsvFile :=
  (scanFiles quota cs eo files (initState target_types)).2

/-- The union of all discovered identifier sets (`all_target_ids`). -/
def allTargetIds (m : FoundMap) : List Cell :=
  ((m.map (·.2)).flatten).dedup

/-- The pass-2 row filter `chunk['flight_id'].isin(all_target_ids)`
(pandas `isin` matches NaN cells against NaN members). -/
def rowMatch (ids : List Cell) (r : Row) : Bool :=
  decide (r.flight_id ∈ ids)

/-- The pass-2 accumulator `collected_data`: for every file and every
chunk, append the filtered chunk if it is non-empty. -/
def collectBatches (files : List CsvFile) (ids : List Cell) (cs : Nat) :
    List (List Row) :=
  files.foldl (fun acc f =>
    (chunksOf cs f.yielded).foldl (fun acc2 c =>
      let fc := c.filter (rowMatch ids)
      if fc.isEmpty then acc2 else acc2 ++ [fc]) acc) []

/-- Lexicographic comparison of character lists by code point — how Python
compares strings. -/
def charsLt : List Char → List Char → Bool
  | [], [] => false
  | [], _ :: _ => true
  | _ :: _, [] => false
  | c :: cs, d :: ds =>
    if c.toNat < d.toNat then true
    else if d.toNat < c.toNat then false
    else charsLt cs ds

/-- Strict string order by code points (Python string `<`). -/
def strLt (a b : String) : Bool := charsLt a.data b.data

/-- Boolean order on cells used by the final sort: lexicographic on the
string value with missing values (NaN) last, as pandas `sort_values`
places them by default. -/
def cellLt (x y : Cell) : Bool :=
  match x, y with
  | some a, some b => strLt a b
  | some _, none => true
  | none, _ => false

/-- Non-strict version of `cellLt`. -/
def cellLe (x y : Cell) : Bool :=
  match x, y with
  | _, none => true
  | none, some _ => false
  | some a, some b => !strLt b a

/-- The sort key order of `sort_values(['type', 'flight_id'])`:
lexicographic on (type, flight_id). -/
def rowLe (r s : Row) : Bool :=
  cellLt r.type s.type || (decide (r.type = s.type) && cellLe r.flight_id s.flight_id)

/-- Insert a row into a sorted list, after every already-present row that
is `le` it (so that a run of equal keys keeps its original order). -/
def insertRow (le : Row → Row → Bool) (r : Row) : List Row → List Row
  | [] => [r]
  | s :: rest => if le r s then r :: s :: rest else s :: insertRow le r rest

/-- Stable sort of the collected rows.  `sort_values(['type', 'flight_id'])`
performs a stable lexicographic sort (NumPy lexsort); any stable sort with
the same key order produces the same list, and insertion sort is used here
because the kernel can evaluate it. -/
def sortRows (le : Row → Row → Bool) : List Row → List Row
  | [] => []
  | r :: rest => insertRow le r (sortRows le rest)

/-- Pass 2, `collect_flight_data`: flatten the discovered map into
`all_target_ids`, return empty immediately if it is empty; otherwise
stream every file (no early exit), accumulate matching rows, and if
anything was collected concatenate and stable-sort by (type, flight_id). -/
def collect_flight_data (files : List CsvFile) (m : FoundMap) (cs : Nat) :
    List Row :=
  let ids := allTargetIds m
  if ids.isEmpty then []
  else
    let batches := collectBatches files ids cs
    if batches.isEmpty then []
    else sortRows rowLe batches.flatten

/-- The files opened by the collection pass: none when `all_target_ids`
is empty (early return before the loop), otherwise every file (the loop
has no early exit). -/
def collect_opened (files : List CsvFile) (m : FoundMap) : List CsvFile :=
  if (allTargetIds m).isEmpty then [] else files

/-- The whole pipeline, `process_flight_csvs`, on an already resolved
(sorted) file list: pass 1 then pass 2 on the same files and chunk size.
The persisted CSV output is byte-determined by the returned row list. -/
def process_flight_csvs (files : List CsvFile) (target_types : List String)
    (quota cs : Nat) (eo : List Cell → List Cell) : List Row :=
  collect_flight_data files (find_target_flight_ids files target_types quota cs eo) cs

/-- The distinct flight identifiers of type `t` occurring in a row list,
in first-seen order. -/
def seenIds (t : String) (R : List Row) : List Cell :=
  ((typeRowsIn t R).map (·.flight_id)).dedup

/-- All rows yielded by the chunked reader across a file list. -/
def allYielded (files : List CsvFile) : List Row :=
  (files.map (·.yielded)).flatten

/-- All rows contained in a file list (whether or not readable). -/
def allRows (files : List CsvFile) : List Row :=
  (files.map (·.rows)).flatten

/-- The distinct flight identifiers of type `t` present across the input
files. -/
def availableIds (t : String) (files : List CsvFile) : List Cell :=
  seenIds t (allRows files)

/-- An enumeration oracle is a possible Python set iteration order: it
permutes the set's contents. -/
def PermOracle (eo : List Cell → List Cell) : Prop :=
  ∀ l, (eo l).Perm l

/-- The identity oracle (iteration in insertion order) is one possible
iteration order. -/
theorem permOracle_id : PermOracle id := fun _ => List.Perm.refl _

/-- Reversal is another possible iteration order. -/
theorem permOracle_reverse : PermOracle List.reverse := fun l => List.reverse_perm l

/-! ### Basic lemmas about the building blocks -/

theorem chunksOfAux_flatten (n : Nat) :
    ∀ (fuel : Nat) (l : List Row), l.length ≤ fuel →
    (chunksOfAux n fuel l).flatten = l
  | 0, [], _ => rfl
  | fuel + 1, [], _ => rfl
  | 0, x :: xs, h => by simp at h
  | fuel + 1, x :: xs, h => by
    simp only [chunksOfAux, List.flatten_cons]
    rw [chunksOfAux_flatten n fuel (xs.drop (n - 1))
      (by simp only [List.length_drop]; simp at h; omega)]
    simp [List.cons_append, List.take_append_drop]

theorem chunksOf_flatten (n : Nat) (l : List Row) : (chunksOf n l).flatten = l :=
  chunksOfAux_flatten n l.length l (Nat.le_refl _)

theorem mem_of_mem_chunksOf {n : Nat} {l : List Row} {c : List Row} {r : Row}
    (hc : c ∈ chunksOf n l) (hr : r ∈ c) : r ∈ l := by
  have : r ∈ (chunksOf n l).flatten := List.mem_flatten.2 ⟨c, hc, hr⟩
  rwa [chunksOf_flatten] at this

theorem lookupIds_updateAssoc_self (m : FoundMap) (t : String) (v : List Cell) :
    lookupIds (updateAssoc m t v) t = v := by
  induction m with
  | nil => simp [updateAssoc, lookupIds]
  | cons p rest ih =>
    obtain ⟨k, w⟩ := p
    by_cases h : k = t
    · simp [updateAssoc, lookupIds, h]
    · simp [updateAssoc, lookupIds, h, ih]

theorem lookupIds_updateAssoc_other {t t' : String} (h : t' ≠ t)
    (m : FoundMap) (v : List Cell) :
    lookupIds (updateAssoc m t v) t' = lookupIds m t' := by
  have htt : ¬ t = t' := fun hh => h hh.symm
  induction m with
  | nil => simp [updateAssoc, lookupIds, htt]
  | cons p rest ih =>
    obtain ⟨k, w⟩ := p
    by_cases hk : k = t
    · subst hk
      simp [updateAssoc, lookupIds, htt]
    · simp only [updateAssoc, if_neg hk]
      by_cases hk' : k = t'
      · simp [lookupIds, hk']
      · simp [lookupIds, hk', ih]

theorem mem_updateAssoc {m : FoundMap} {t : String} {v : List Cell} {p : String × List Cell}
    (h : p ∈ updateAssoc m t v) : p = (t, v) ∨ p ∈ m := by
  induction m with
  | nil => simpa [updateAssoc] using h
  | cons q rest ih =>
    obtain ⟨k, w⟩ := q
    by_cases hk : k = t
    · simp only [updateAssoc, if_pos hk] at h
      rcases List.mem_cons.1 h with h | h
      · exact .inl h
      · exact .inr (List.mem_cons.2 (.inr h))
    · simp only [updateAssoc, if_neg hk] at h
      rcases List.mem_cons.1 h with h | h
      · exact .inr (List.mem_cons.2 (.inl h))
      · rcases ih h with h | h
        · exact .inl h
        · exact .inr (List.mem_cons.2 (.inr h))

theorem keys_updateAssoc (m : FoundMap) (t : String) (v : List Cell) :
    (updateAssoc m t v).map Prod.fst =
      if t ∈ m.map Prod.fst then m.map Prod.fst else m.map Prod.fst ++ [t] := by
  induction m with
  | nil => simp [updateAssoc]
  | cons q rest ih =>
    obtain ⟨k, w⟩ := q
    by_cases hk : k = t
    · simp [updateAssoc, hk]
    · have htk : ¬ t = k := fun hh => hk hh.symm
      simp only [updateAssoc, if_neg hk, List.map_cons, ih]
      by_cases hm : t ∈ rest.map Prod.fst
      · simp [hm, htk]
      · simp [hm, htk]

theorem lookupIds_mem {m : FoundMap} {t : String}
    (h : lookupIds m t ≠ []) : (t, lookupIds m t) ∈ m := by
  induction m with
  | nil => simp [lookupIds] at h
  | cons q rest ih =>
    obtain ⟨k, w⟩ := q
    by_cases hk : k = t
    · subst hk
      simp [lookupIds]
    · simp only [lookupIds, if_neg hk] at h ⊢
      exact List.mem_cons.2 (.inr (ih h))

theorem lookupIds_eq_of_mem {m : FoundMap} {t : String} {v : List Cell}
    (hk : (m.map Prod.fst).Nodup) (h : (t, v) ∈ m) : lookupIds m t = v := by
  induction m with
  | nil => simp at h
  | cons q rest ih =>
    obtain ⟨k, w⟩ := q
    simp only [List.map_cons, List.nodup_cons] at hk
    rcases List.mem_cons.1 h with h | h
    · cases h
      simp [lookupIds]
    · have hkt : k ≠ t := by
        intro hkt
        exact hk.1 (hkt ▸ List.mem_map.2 ⟨(t, v), h, rfl⟩)
      simp only [lookupIds, if_neg hkt]
      exact ih hk.2 h

theorem mem_insertIds {cur new : List Cell} {x : Cell} :
    x ∈ insertIds cur new ↔ x ∈ cur ∨ x ∈ new := by
  simp only [insertIds, List.mem_append, List.mem_filter, decide_eq_true_eq]
  constructor
  · rintro (h | ⟨h, -⟩)
    · exact .inl h
    · exact .inr h
  · rintro (h | h)
    · exact .inl h
    · by_cases hc : x ∈ cur
      · exact .inl hc
      · exact .inr ⟨h, hc⟩

theorem nodup_insertIds {cur new : List Cell}
    (hc : cur.Nodup) (hn : new.Nodup) : (insertIds cur new).Nodup := by
  refine List.Nodup.append hc (hn.filter _) ?_
  intro x hx hx'
  rcases List.mem_filter.1 hx' with ⟨-, hdec⟩
  exact (of_decide_eq_true hdec) hx

theorem mem_seenIds {t : String} {R : List Row} {x : Cell} :
    x ∈ seenIds t R ↔ ∃ r ∈ R, r.type = some t ∧ r.flight_id = x := by
  simp only [seenIds, typeRowsIn, List.mem_dedup, List.mem_map, List.mem_filter,
    decide_eq_true_eq]
  constructor
  · rintro ⟨r, ⟨hr, ht⟩, hf⟩
    exact ⟨r, hr, ht, hf⟩
  · rintro ⟨r, hr, ht, hf⟩
    exact ⟨r, ⟨hr, ht⟩, hf⟩

theorem seenIds_nodup (t : String) (R : List Row) : (seenIds t R).Nodup :=
  List.nodup_dedup _

theorem mem_seenIds_append {t : String} {R S : List Row} {x : Cell} :
    x ∈ seenIds t (R ++ S) ↔ x ∈ seenIds t R ∨ x ∈ seenIds t S := by
  simp only [mem_seenIds, List.mem_append]
  constructor
  · rintro ⟨r, (hr | hr), ht, hf⟩
    · exact .inl ⟨r, hr, ht, hf⟩
    · exact .inr ⟨r, hr, ht, hf⟩
  · rintro (⟨r, hr, ht, hf⟩ | ⟨r, hr, ht, hf⟩)
    · exact ⟨r, .inl hr, ht, hf⟩
    · exact ⟨r, .inr hr, ht, hf⟩

theorem mem_seenIds_mono {t : String} {R S : List Row} {x : Cell}
    (hsub : ∀ r ∈ R, r ∈ S) (h : x ∈ seenIds t R) : x ∈ seenIds t S := by
  rcases mem_seenIds.1 h with ⟨r, hr, ht, hf⟩
  exact mem_seenIds.2 ⟨r, hsub r hr, ht, hf⟩

theorem typeRowsIn_maskFilter {t : String} {needed : List String}
    (h : t ∈ needed) (c : List Row) :
    typeRowsIn t (c.filter (fun r =>
      match r.type with
      | some u => decide (u ∈ needed)
      | none => false)) = typeRowsIn t c := by
  simp only [typeRowsIn, List.filter_filter]
  apply List.filter_congr
  intro r _
  cases hr : r.type with
  | none => simp [hr]
  | some u =>
    by_cases hu : u = t
    · subst hu
      simp [hr, h]
    · simp [hr, hu]

/-! ### Characterization of one discovery chunk step -/

theorem stepType_lookup_other {t t' : String} (h : t' ≠ t) (quota : Nat)
    (eo : List Cell → List Cell) (flt : List Row) (st : ScanState) :
    lookupIds (stepType quota eo flt st t).found t' = lookupIds st.found t' := by
  simp only [stepType]
  split
  · rfl
  · split
    · exact lookupIds_updateAssoc_other h _ _
    · exact lookupIds_updateAssoc_other h _ _

theorem stepType_needed_other {t t' : String} (h : t' ≠ t) (quota : Nat)
    (eo : List Cell → List Cell) (flt : List Row) (st : ScanState) :
    t' ∈ (stepType quota eo flt st t).needed ↔ t' ∈ st.needed := by
  simp only [stepType]
  split
  · exact Iff.rfl
  · split
    · exact List.mem_erase_of_ne h
    · exact Iff.rfl

theorem stepType_needed_subset (quota : Nat) (eo : List Cell → List Cell)
    (flt : List Row) (st : ScanState) (t t' : String)
    (h : t' ∈ (stepType quota eo flt st t).needed) : t' ∈ st.needed := by
  revert h
  simp only [stepType]
  split
  · exact id
  · split
    · exact List.mem_of_mem_erase
    · exact id

theorem stepType_needed_nodup (quota : Nat) (eo : List Cell → List Cell)
    (flt : List Row) (st : ScanState) (t : String) (h : st.needed.Nodup) :
    (stepType quota eo flt st t).needed.Nodup := by
  simp only [stepType]
  split
  · exact h
  · split
    · exact h.erase t
    · exact h

theorem mem_found_stepType {quota : Nat} {eo : List Cell → List Cell}
    {flt : List Row} {st : ScanState} {t : String} {p : String × List Cell}
    (heo : PermOracle eo) (hp : p ∈ (stepType quota eo flt st t).found) :
    p ∈ st.found ∨
      (p.1 = t ∧ ∀ x ∈ p.2, x ∈ lookupIds st.found t ∨ x ∈ seenIds t flt) := by
  revert hp
  simp only [stepType]
  split
  · exact .inl
  · split
    · intro hp
      rcases mem_updateAssoc hp with h | h
      · subst h
        refine .inr ⟨rfl, ?_⟩
        intro x hx
        have hx2 : x ∈ eo (insertIds (lookupIds st.found t)
            ((List.map (fun r => r.flight_id) (typeRowsIn t flt)).dedup)) :=
          List.mem_of_mem_take hx
        have hx3 := (heo _).mem_iff.1 hx2
        rcases mem_insertIds.1 hx3 with h | h
        · exact .inl h
        · exact .inr h
      · exact .inl h
    · intro hp
      rcases mem_updateAssoc hp with h | h
      · subst h
        refine .inr ⟨rfl, ?_⟩
        intro x hx
        rcases mem_insertIds.1 hx with h | h
        · exact .inl h
        · exact .inr h
      · exact .inl h

theorem stepType_self_congr (quota : Nat) (eo : List Cell → List Cell)
    (flt : List Row) {t : String} {st1 st2 : ScanState}
    (hl : lookupIds st1.found t = lookupIds st2.found t)
    (hn : t ∈ st1.needed ↔ t ∈ st2.needed)
    (h1 : st1.needed.Nodup) (h2 : st2.needed.Nodup) :
    lookupIds (stepType quota eo flt st1 t).found t =
      lookupIds (stepType quota eo flt st2 t).found t ∧
    (t ∈ (stepType quota eo flt st1 t).needed ↔
      t ∈ (stepType quota eo flt st2 t).needed) := by
  by_cases hemp : (typeRowsIn t flt).isEmpty
  · simp [stepType, hemp, hl, hn]
  · by_cases hq : quota ≤ (insertIds (lookupIds st2.found t)
        ((List.map (fun r => r.flight_id) (typeRowsIn t flt)).dedup)).length
    · simp only [stepType, hl, if_neg hemp, if_pos hq]
      refine ⟨by rw [lookupIds_updateAssoc_self, lookupIds_updateAssoc_self], ?_⟩
      rw [List.Nodup.mem_erase_iff h1, List.Nodup.mem_erase_iff h2]
      simp
    · simp only [stepType, hl, if_neg hemp, if_neg hq]
      refine ⟨by rw [lookupIds_updateAssoc_self, lookupIds_updateAssoc_self], hn⟩

/-! ### Characterization of the per-type loop (fold over `types_needed`) -/

theorem foldl_stepType_other (quota : Nat) (eo : List Cell → List Cell)
    (flt : List Row) {t : String} :
    ∀ (ts : List String) (st : ScanState), t ∉ ts →
    lookupIds ((ts.foldl (stepType quota eo flt) st).found) t = lookupIds st.found t ∧
    (t ∈ (ts.foldl (stepType quota eo flt) st).needed ↔ t ∈ st.needed)
  | [], st, _ => ⟨rfl, Iff.rfl⟩
  | t'' :: ts', st, h => by
    have hne : t ≠ t'' := fun hh => h (hh ▸ List.mem_cons_self _ _)
    have hts : t ∉ ts' := fun hh => h (List.mem_cons.2 (.inr hh))
    have ih := foldl_stepType_other quota eo flt ts' (stepType quota eo flt st t'') hts
    simp only [List.foldl_cons]
    exact ⟨ih.1.trans (stepType_lookup_other hne _ _ _ _),
      ih.2.trans (stepType_needed_other hne _ _ _ _)⟩

theorem foldl_stepType_needed_subset (quota : Nat) (eo : List Cell → List Cell)
    (flt : List Row) :
    ∀ (ts : List String) (st : ScanState) (t' : String),
    t' ∈ (ts.foldl (stepType quota eo flt) st).needed → t' ∈ st.needed
  | [], _, _, h => h
  | t'' :: ts', st, t', h => by
    simp only [List.foldl_cons] at h
    exact stepType_needed_subset _ _ _ _ _ _
      (foldl_stepType_needed_subset quota eo flt ts' _ t' h)

theorem foldl_stepType_needed_nodup (quota : Nat) (eo : List Cell → List Cell)
    (flt : List Row) :
    ∀ (ts : List String) (st : ScanState), st.needed.Nodup →
    (ts.foldl (stepType quota eo flt) st).needed.Nodup
  | [], _, h => h
  | t'' :: ts', st, h => by
    simp only [List.foldl_cons]
    exact foldl_stepType_needed_nodup quota eo flt ts' _ (stepType_needed_nodup _ _ _ _ _ h)

theorem foldl_stepType_self (quota : Nat) (eo : List Cell → List Cell)
    (flt : List Row) {t : String} :
    ∀ (ts : List String) (st : ScanState), ts.Nodup → st.needed.Nodup → t ∈ ts →
    lookupIds ((ts.foldl (stepType quota eo flt) st).found) t =
      lookupIds (stepType quota eo flt st t).found t ∧
    (t ∈ (ts.foldl (stepType quota eo flt) st).needed ↔
      t ∈ (stepType quota eo flt st t).needed)
  | [], _, _, _, ht => absurd ht (List.not_mem_nil t)
  | t'' :: ts', st, hnd, hsn, ht => by
    simp only [List.foldl_cons]
    by_cases h : t'' = t
    · subst h
      have hts : t'' ∉ ts' := (List.nodup_cons.1 hnd).1
      exact foldl_stepType_other quota eo flt ts' _ hts
    · have hts : t ∈ ts' := by
        rcases List.mem_cons.1 ht with hh | hh
        · exact absurd hh.symm h
        · exact hh
      have hne : t ≠ t'' := fun hh => h hh.symm
      have ih := foldl_stepType_self quota eo flt ts' (stepType quota eo flt st t'')
        (List.nodup_cons.1 hnd).2 (stepType_needed_nodup quota eo flt st t'' hsn) hts
      have hcongr := stepType_self_congr quota eo flt
        (stepType_lookup_other hne quota eo flt st)
        (stepType_needed_other hne quota eo flt st)
        (stepType_needed_nodup quota eo flt st t'' hsn) hsn
      exact ⟨ih.1.trans hcongr.1, ih.2.trans hcongr.2⟩

/-! ### Characterization of `processChunk` -/

theorem processChunk_not_needed (quota : Nat) (eo : List Cell → List Cell)
    {st : ScanState} (c : List Row) {t : String} (h : t ∉ st.needed) :
    lookupIds (processChunk quota eo st c).found t = lookupIds st.found t ∧
    t ∉ (processChunk quota eo st c).needed := by
  simp only [processChunk]
  split
  · exact ⟨rfl, h⟩
  · constructor
    · exact (foldl_stepType_other quota eo _ st.needed st h).1
    · intro hh
      exact h ((foldl_stepType_other quota eo _ st.needed st h).2.1 hh)

theorem processChunk_needed_subset (quota : Nat) (eo : List Cell → List Cell)
    (st : ScanState) (c : List Row) (t : String)
    (h : t ∈ (processChunk quota eo st c).needed) : t ∈ st.needed := by
  revert h
  simp only [processChunk]
  split
  · exact id
  · exact foldl_stepType_needed_subset quota eo _ st.needed st t

theorem processChunk_needed_nodup (quota : Nat) (eo : List Cell → List Cell)
    (st : ScanState) (c : List Row) (h : st.needed.Nodup) :
    (processChunk quota eo st c).needed.Nodup := by
  simp only [processChunk]
  split
  · exact h
  · exact foldl_stepType_needed_nodup quota eo _ st.needed st h

theorem processChunk_needed_case (quota : Nat) (eo : List Cell → List Cell)
    {st : ScanState} (c : List Row) {t : String}
    (hnod : st.needed.Nodup) (ht : t ∈ st.needed) :
    (typeRowsIn t c = [] →
      lookupIds (processChunk quota eo st c).found t = lookupIds st.found t ∧
      t ∈ (processChunk quota eo st c).needed) ∧
    (typeRowsIn t c ≠ [] →
      (quota ≤ (insertIds (lookupIds st.found t)
          ((List.map (fun r => r.flight_id) (typeRowsIn t c)).dedup)).length →
        lookupIds (processChunk quota eo st c).found t =
          (eo (insertIds (lookupIds st.found t)
            ((List.map (fun r => r.flight_id) (typeRowsIn t c)).dedup))).take quota ∧
        t ∉ (processChunk quota eo st c).needed) ∧
      ((insertIds (lookupIds st.found t)
          ((List.map (fun r => r.flight_id) (typeRowsIn t c)).dedup)).length < quota →
        lookupIds (processChunk quota eo st c).found t =
          insertIds (lookupIds st.found t)
            ((List.map (fun r => r.flight_id) (typeRowsIn t c)).dedup) ∧
        t ∈ (processChunk quota eo st c).needed)) := by
  have hmask := typeRowsIn_maskFilter ht c
  simp only [processChunk]
  split
  · rename_i hf
    have hfe : c.filter (fun r =>
        match r.type with
        | some u => decide (u ∈ st.needed)
        | none => false) = [] := List.isEmpty_iff.1 hf
    have htr : typeRowsIn t c = [] := by
      rw [← hmask, hfe]
      rfl
    refine ⟨fun _ => ⟨rfl, ht⟩, fun hne => absurd htr hne⟩
  · have hself := foldl_stepType_self quota eo (c.filter (fun r =>
        match r.type with
        | some u => decide (u ∈ st.needed)
        | none => false)) st.needed st hnod hnod ht
    rw [hself.1]
    have hmem := hself.2
    simp only [stepType, hmask] at hmem ⊢
    by_cases htr : (typeRowsIn t c).isEmpty
    · have htr' : typeRowsIn t c = [] := List.isEmpty_iff.1 htr
      simp only [if_pos htr]
      simp only [if_pos htr] at hmem
      exact ⟨fun _ => ⟨by trivial, hmem.2 ht⟩, fun hne => absurd htr' hne⟩
    · have htr' : typeRowsIn t c ≠ [] := fun hh => htr (by simp [hh])
      refine ⟨fun hh => absurd hh htr', fun _ => ?_⟩
      simp only [if_neg htr] at hmem ⊢
      constructor
      · intro hq
        simp only [if_pos hq] at hmem ⊢
        refine ⟨lookupIds_updateAssoc_self _ _ _, fun hc => ?_⟩
        have := hmem.1 hc
        exact ((List.Nodup.mem_erase_iff hnod).1 this).1 rfl
      · intro hq
        simp only [if_neg (Nat.not_le.2 hq)] at hmem ⊢
        exact ⟨lookupIds_updateAssoc_self _ _ _, hmem.2 ht⟩

/-! ### Lifting the chunk step across chunk lists and files -/

theorem foldl_processChunk_not_needed (quota : Nat) (eo : List Cell → List Cell) :
    ∀ (cl : List (List Row)) (st : ScanState) {t : String}, t ∉ st.needed →
    lookupIds ((cl.foldl (processChunk quota eo) st).found) t = lookupIds st.found t ∧
    t ∉ (cl.foldl (processChunk quota eo) st).needed
  | [], _, _, h => ⟨rfl, h⟩
  | c :: cl', st, t, h => by
    simp only [List.foldl_cons]
    have h1 := processChunk_not_needed quota eo c h
    have h2 := foldl_processChunk_not_needed quota eo cl' (processChunk quota eo st c) h1.2
    exact ⟨h2.1.trans h1.1, h2.2⟩

theorem foldl_processChunk_needed_nodup (quota : Nat) (eo : List Cell → List Cell) :
    ∀ (cl : List (List Row)) (st : ScanState), st.needed.Nodup →
    (cl.foldl (processChunk quota eo) st).needed.Nodup
  | [], _, h => h
  | c :: cl', st, h => by
    simp only [List.foldl_cons]
    exact foldl_processChunk_needed_nodup quota eo cl' _
      (processChunk_needed_nodup quota eo st c h)

theorem foldl_processChunk_needed_subset (quota : Nat) (eo : List Cell → List Cell) :
    ∀ (cl : List (List Row)) (st : ScanState) (t : String),
    t ∈ (cl.foldl (processChunk quota eo) st).needed → t ∈ st.needed
  | [], _, _, h => h
  | c :: cl', st, t, h => by
    simp only [List.foldl_cons] at h
    exact processChunk_needed_subset quota eo st c t
      (foldl_processChunk_needed_subset quota eo cl' _ t h)

theorem mem_allYielded {files : List CsvFile} {r : Row} :
    r ∈ allYielded files ↔ ∃ f ∈ files, r ∈ f.yielded := by
  simp only [allYielded, List.mem_flatten, List.mem_map]
  constructor
  · rintro ⟨l, ⟨f, hf, rfl⟩, hr⟩
    exact ⟨f, hf, hr⟩
  · rintro ⟨f, hf, hr⟩
    exact ⟨f.yielded, ⟨f, hf, rfl⟩, hr⟩

/-! ### Soundness of discovery: keys come from the target list, identifiers
from actually yielded rows of the scanned type -/

/-- Soundness of a scan state with respect to the target list and the rows
the reader can yield: `types_needed` holds target types, and every entry of
the found map is a target type whose identifiers were each observed on a
yielded row of that type. -/
def ScanSound (tts : List String) (files : List CsvFile) (st : ScanState) : Prop :=
  (∀ t ∈ st.needed, t ∈ tts) ∧
  ∀ p ∈ st.found, p.1 ∈ tts ∧
    ∀ x ∈ p.2, ∃ r ∈ allYielded files, r.type = some p.1 ∧ r.flight_id = x

theorem scanSound_stepType {tts : List String} {files : List CsvFile}
    {quota : Nat} {eo : List Cell → List Cell} {flt : List Row}
    {st : ScanState} {t : String}
    (heo : PermOracle eo) (hflt : ∀ r ∈ flt, r ∈ allYielded files)
    (ht : t ∈ tts) (h : ScanSound tts files st) :
    ScanSound tts files (stepType quota eo flt st t) := by
  obtain ⟨hneed, hfound⟩ := h
  constructor
  · intro t' ht'
    exact hneed t' (stepType_needed_subset _ _ _ _ _ _ ht')
  · intro p hp
    rcases mem_found_stepType heo hp with hp | ⟨hp1, hp2⟩
    · exact hfound p hp
    · refine ⟨hp1 ▸ ht, ?_⟩
      intro x hx
      rcases hp2 x hx with hx | hx
      · have hne : lookupIds st.found t ≠ [] := by
          intro hh
          rw [hh] at hx
          exact absurd hx (List.not_mem_nil x)
        have := (hfound _ (lookupIds_mem hne)).2 x hx
        simpa [hp1] using this
      · rcases mem_seenIds.1 hx with ⟨r, hr, hrt, hrf⟩
        exact ⟨r, hflt r hr, hp1 ▸ hrt, hrf⟩

theorem scanSound_foldl_stepType {tts : List String} {files : List CsvFile}
    {quota : Nat} {eo : List Cell → List Cell} {flt : List Row}
    (heo : PermOracle eo) (hflt : ∀ r ∈ flt, r ∈ allYielded files) :
    ∀ (ts : List String) (st : ScanState), (∀ t ∈ ts, t ∈ tts) →
    ScanSound tts files st → ScanSound tts files (ts.foldl (stepType quota eo flt) st)
  | [], _, _, h => h
  | t'' :: ts', st, hts, h => by
    simp only [List.foldl_cons]
    exact scanSound_foldl_stepType heo hflt ts' _
      (fun t ht => hts t (List.mem_cons.2 (.inr ht)))
      (scanSound_stepType heo hflt (hts t'' (List.mem_cons_self _ _)) h)

theorem scanSound_processChunk {tts : List String} {files : List CsvFile}
    {quota : Nat} {eo : List Cell → List Cell} {st : ScanState} {c : List Row}
    (heo : PermOracle eo) (hc : ∀ r ∈ c, r ∈ allYielded files)
    (h : ScanSound tts files st) :
    ScanSound tts files (processChunk quota eo st c) := by
  simp only [processChunk]
  split
  · exact h
  · refine scanSound_foldl_stepType heo ?_ st.needed st h.1 h
    intro r hr
    exact hc r (List.mem_of_mem_filter hr)

theorem scanSound_foldl_processChunk {tts : List String} {files : List CsvFile}
    {quota : Nat} {eo : List Cell → List Cell} (heo : PermOracle eo) :
    ∀ (cl : List (List Row)) (st : ScanState),
    (∀ c ∈ cl, ∀ r ∈ c, r ∈ allYielded files) →
    ScanSound tts files st → ScanSound tts files (cl.foldl (processChunk quota eo) st)
  | [], _, _, h => h
  | c :: cl', st, hcl, h => by
    simp only [List.foldl_cons]
    exact scanSound_foldl_processChunk heo cl' _
      (fun c' hc' => hcl c' (List.mem_cons.2 (.inr hc')))
      (scanSound_processChunk heo (hcl c (List.mem_cons_self _ _)) h)

theorem scanSound_scanFile {tts : List String} {files : List CsvFile}
    {quota cs : Nat} {eo : List Cell → List Cell} {st : ScanState} {f : CsvFile}
    (heo : PermOracle eo) (hf : ∀ r ∈ f.yielded, r ∈ allYielded files)
    (h : ScanSound tts files st) :
    ScanSound tts files (scanFile quota cs eo st f) := by
  rw [scanFile]
  refine scanSound_foldl_processChunk heo _ st ?_ h
  intro c hc r hr
  exact hf r (mem_of_mem_chunksOf hc hr)

theorem scanSound_scanFiles {tts : List String} {files : List CsvFile}
    (quota cs : Nat) {eo : List Cell → List Cell} (heo : PermOracle eo) :
    ∀ (fs : List CsvFile) (st : ScanState),
    (∀ f ∈ fs, ∀ r ∈ f.yielded, r ∈ allYielded files) →
    ScanSound tts files st → ScanSound tts files (scanFiles quota cs eo fs st).1
  | [], _, _, h => h
  | f :: fs', st, hfs, h => by
    rw [scanFiles]
    split
    · exact h
    · exact scanSound_scanFiles quota cs heo fs' _
        (fun f' hf' => hfs f' (List.mem_cons.2 (.inr hf')))
        (scanSound_scanFile heo (hfs f (List.mem_cons_self _ _)) h)

/-! ### The per-type size bound (quota) on the found map -/

/-- Every entry of the found map holds at most `quota` identifiers. -/
def SizeBound (quota : Nat) (m : FoundMap) : Prop :=
  ∀ p ∈ m, p.2.length ≤ quota

theorem sizeBound_stepType {quota : Nat} {eo : List Cell → List Cell}
    {flt : List Row} {st : ScanState} {t : String}
    (h : SizeBound quota st.found) :
    SizeBound quota (stepType quota eo flt st t).found := by
  intro p hp
  revert hp
  simp only [stepType]
  split
  · exact h p
  · split
    · intro hp
      rcases mem_updateAssoc hp with hh | hh
      · rw [hh]
        simp only [List.length_take]
        exact Nat.min_le_left quota _
      · exact h p hh
    · rename_i hq
      intro hp
      rcases mem_updateAssoc hp with hh | hh
      · rw [hh]
        exact Nat.le_of_lt (Nat.lt_of_not_le hq)
      · exact h p hh

theorem sizeBound_foldl_stepType {quota : Nat} {eo : List Cell → List Cell}
    {flt : List Row} :
    ∀ (ts : List String) (st : ScanState), SizeBound quota st.found →
    SizeBound quota ((ts.foldl (stepType quota eo flt) st).found)
  | [], _, h => h
  | t'' :: ts', st, h => by
    simp only [List.foldl_cons]
    exact sizeBound_foldl_stepType ts' _ (sizeBound_stepType h)

theorem sizeBound_processChunk {quota : Nat} {eo : List Cell → List Cell}
    {st : ScanState} {c : List Row} (h : SizeBound quota st.found) :
    SizeBound quota (processChunk quota eo st c).found := by
  simp only [processChunk]
  split
  · exact h
  · exact sizeBound_foldl_stepType st.needed st h

theorem sizeBound_foldl_processChunk {quota : Nat} {eo : List Cell → List Cell} :
    ∀ (cl : List (List Row)) (st : ScanState), SizeBound quota st.found →
    SizeBound quota ((cl.foldl (processChunk quota eo) st).found)
  | [], _, h => h
  | c :: cl', st, h => by
    simp only [List.foldl_cons]
    exact sizeBound_foldl_processChunk cl' _ (sizeBound_processChunk h)

theorem sizeBound_scanFiles {quota cs : Nat} {eo : List Cell → List Cell} :
    ∀ (fs : List CsvFile) (st : ScanState), SizeBound quota st.found →
    SizeBound quota (scanFiles quota cs eo fs st).1.found
  | [], _, h => h
  | f :: fs', st, h => by
    rw [scanFiles]
    split
    · exact h
    · exact sizeBound_scanFiles fs' _ (sizeBound_foldl_processChunk _ st h)

/-! ### The full discovery invariant: exact quota attainment -/

/-- Invariant of the discovery scan after processing the row stream `R`
(for positive `quota` and target list `tts`): `types_needed` is
duplicate-free and holds target types; stored identifier lists are
duplicate-free; a type still needed holds exactly the distinct identifiers
of that type seen so far — fewer than `quota` of them; a target type no
longer needed holds exactly `quota` identifiers. -/
structure ScanInv (quota : Nat) (tts : List String) (R : List Row)
    (st : ScanState) : Prop where
  neededNodup : st.needed.Nodup
  neededSub : ∀ t ∈ st.needed, t ∈ tts
  foundNodup : ∀ t, (lookupIds st.found t).Nodup
  inNeeded : ∀ t ∈ st.needed,
    (∀ x, x ∈ lookupIds st.found t ↔ x ∈ seenIds t R) ∧
    (lookupIds st.found t).length < quota
  doneQuota : ∀ t, t ∈ tts → t ∉ st.needed → (lookupIds st.found t).length = quota

theorem scanInv_init {quota : Nat} {tts : List String} (hq : 0 < quota) :
    ScanInv quota tts [] (initState tts) := by
  refine ⟨List.nodup_dedup _, fun t ht => List.mem_dedup.1 ht, ?_, ?_, ?_⟩
  · intro t
    show ([] : List Cell).Nodup
    exact List.nodup_nil
  · intro t _
    exact ⟨fun x => by simp [initState, lookupIds, seenIds, typeRowsIn], hq⟩
  · intro t ht hnot
    exact absurd (List.mem_dedup.2 ht) hnot

theorem seenIds_eq_nil_of_typeRows {t : String} {c : List Row}
    (h : typeRowsIn t c = []) : seenIds t c = [] := by
  simp [seenIds, h]

theorem scanInv_processChunk {quota : Nat} {tts : List String} {R : List Row}
    {eo : List Cell → List Cell} {st : ScanState} {c : List Row}
    (heo : PermOracle eo) (h : ScanInv quota tts R st) :
    ScanInv quota tts (R ++ c) (processChunk quota eo st c) := by
  have hnodup := h.neededNodup
  refine ⟨processChunk_needed_nodup quota eo st c hnodup,
    fun t ht => h.neededSub t (processChunk_needed_subset quota eo st c t ht),
    ?_, ?_, ?_⟩
  · intro t
    by_cases ht : t ∈ st.needed
    · have hcase := processChunk_needed_case quota eo c hnodup ht
      by_cases htr : typeRowsIn t c = []
      · rw [(hcase.1 htr).1]
        exact h.foundNodup t
      · have hcur : (insertIds (lookupIds st.found t)
            ((List.map (fun r => r.flight_id) (typeRowsIn t c)).dedup)).Nodup :=
          nodup_insertIds (h.foundNodup t) (List.nodup_dedup _)
        by_cases hq2 : quota ≤ (insertIds (lookupIds st.found t)
            ((List.map (fun r => r.flight_id) (typeRowsIn t c)).dedup)).length
        · rw [((hcase.2 htr).1 hq2).1]
          exact ((List.take_sublist _ _).nodup ((heo _).symm.nodup hcur))
        · rw [((hcase.2 htr).2 (Nat.lt_of_not_le hq2)).1]
          exact hcur
    · rw [(processChunk_not_needed quota eo c ht).1]
      exact h.foundNodup t
  · intro t ht
    have hts : t ∈ st.needed := processChunk_needed_subset quota eo st c t ht
    have hcase := processChunk_needed_case quota eo c hnodup hts
    have hold := h.inNeeded t hts
    by_cases htr : typeRowsIn t c = []
    · rw [(hcase.1 htr).1]
      refine ⟨fun x => ?_, hold.2⟩
      rw [mem_seenIds_append, seenIds_eq_nil_of_typeRows htr]
      simp [hold.1 x]
    · by_cases hq2 : quota ≤ (insertIds (lookupIds st.found t)
          ((List.map (fun r => r.flight_id) (typeRowsIn t c)).dedup)).length
      · exact absurd ht ((hcase.2 htr).1 hq2).2
      · have hlt := Nat.lt_of_not_le hq2
        rw [((hcase.2 htr).2 hlt).1]
        refine ⟨fun x => ?_, hlt⟩
        rw [mem_insertIds, mem_seenIds_append, hold.1 x]
        constructor
        · rintro (hx | hx)
          · exact .inl hx
          · exact .inr hx
        · rintro (hx | hx)
          · exact .inl hx
          · exact .inr hx
  · intro t ht hnot
    by_cases hts : t ∈ st.needed
    · have hcase := processChunk_needed_case quota eo c hnodup hts
      by_cases htr : typeRowsIn t c = []
      · exact absurd (hcase.1 htr).2 hnot
      · by_cases hq2 : quota ≤ (insertIds (lookupIds st.found t)
            ((List.map (fun r => r.flight_id) (typeRowsIn t c)).dedup)).length
        · rw [((hcase.2 htr).1 hq2).1]
          rw [List.length_take, (heo _).length_eq]
          exact Nat.min_eq_left hq2
        · exact absurd ((hcase.2 htr).2 (Nat.lt_of_not_le hq2)).2 hnot
    · rw [(processChunk_not_needed quota eo c hts).1]
      exact h.doneQuota t ht hts

theorem scanInv_foldl_processChunk {quota : Nat} {tts : List String}
    {eo : List Cell → List Cell} (heo : PermOracle eo) :
    ∀ (cl : List (List Row)) (st : ScanState) (R : List Row),
    ScanInv quota tts R st →
    ScanInv quota tts (R ++ cl.flatten) (cl.foldl (processChunk quota eo) st)
  | [], st, R, h => by simpa using h
  | c :: cl', st, R, h => by
    simp only [List.foldl_cons, List.flatten_cons, ← List.append_assoc]
    exact scanInv_foldl_processChunk heo cl' _ (R ++ c) (scanInv_processChunk heo h)

theorem scanInv_scanFile {quota cs : Nat} {tts : List String} {R : List Row}
    {eo : List Cell → List Cell} {st : ScanState} {f : CsvFile}
    (heo : PermOracle eo) (h : ScanInv quota tts R st) :
    ScanInv quota tts (R ++ f.yielded) (scanFile quota cs eo st f) := by
  have := scanInv_foldl_processChunk heo (chunksOf cs f.yielded) st R h
  rwa [chunksOf_flatten] at this

/-- What survives of the invariant at the end of the file loop, stated
against the full yielded row stream even if the loop exited early (an early
exit means `types_needed` is empty, so the needed clause is vacuous). -/
structure ScanFinal (quota : Nat) (tts : List String) (Rall : List Row)
    (st : ScanState) : Prop where
  foundNodup : ∀ t, (lookupIds st.found t).Nodup
  inNeeded : ∀ t ∈ st.needed,
    (∀ x, x ∈ lookupIds st.found t ↔ x ∈ seenIds t Rall) ∧
    (lookupIds st.found t).length < quota
  doneQuota : ∀ t, t ∈ tts → t ∉ st.needed → (lookupIds st.found t).length = quota

theorem scanInv_scanFiles {quota : Nat} (cs : Nat) {tts : List String}
    {eo : List Cell → List Cell} (heo : PermOracle eo) :
    ∀ (fs : List CsvFile) (st : ScanState) (R : List Row),
    ScanInv quota tts R st →
    ScanFinal quota tts (R ++ allYielded fs) (scanFiles quota cs eo fs st).1
  | [], st, R, h => by
    simp only [scanFiles, allYielded, List.map_nil, List.flatten_nil, List.append_nil]
    exact ⟨h.foundNodup, h.inNeeded, h.doneQuota⟩
  | f :: fs', st, R, h => by
    rw [scanFiles]
    split
    · rename_i hemp
      have hne : st.needed = [] := List.isEmpty_iff.1 hemp
      refine ⟨h.foundNodup, ?_, h.doneQuota⟩
      intro t ht
      rw [hne] at ht
      exact absurd ht (List.not_mem_nil t)
    · have h2 := scanInv_scanFiles cs heo fs' (scanFile quota cs eo st f)
        (R ++ f.yielded) (scanInv_scanFile heo h)
      have hR : R ++ f.yielded ++ allYielded fs' = R ++ allYielded (f :: fs') := by
        simp [allYielded, List.append_assoc]
      rwa [hR] at h2

/-! ### Counting lemmas for duplicate-free lists -/

theorem nodup_subset_length {l1 l2 : List Cell} (h1 : l1.Nodup)
    (hsub : ∀ x ∈ l1, x ∈ l2) : l1.length ≤ l2.length := by
  calc l1.length = l1.toFinset.card := (List.toFinset_card_of_nodup h1).symm
    _ ≤ l2.toFinset.card := Finset.card_le_card
        (fun x hx => List.mem_toFinset.2 (hsub x (List.mem_toFinset.1 hx)))
    _ ≤ l2.length := List.toFinset_card_le l2

theorem nodup_length_eq_of_iff {l1 l2 : List Cell} (h1 : l1.Nodup) (h2 : l2.Nodup)
    (hiff : ∀ x, x ∈ l1 ↔ x ∈ l2) : l1.length = l2.length :=
  Nat.le_antisymm (nodup_subset_length h1 (fun x hx => (hiff x).1 hx))
    (nodup_subset_length h2 (fun x hx => (hiff x).2 hx))

theorem allRows_eq_allYielded {files : List CsvFile}
    (hok : ∀ f ∈ files, f.failAfter = none) : allRows files = allYielded files := by
  unfold allRows allYielded
  congr 1
  apply List.map_congr_left
  intro f hf
  simp [CsvFile.yielded, hok f hf]

/-! ### Claim theorems: discovery pass -/

/-- C1 (quota invariant): given any possible set-iteration order, a
positive quota and readable input files, every target type with at least
`quota` distinct flight identifiers across the files gets exactly `quota`
(distinct) identifiers in the map returned by `find_target_flight_ids`,
and every target type with fewer than `quota` available identifiers gets
exactly the set of all its distinct identifiers. -/
theorem quota_invariant (files : List CsvFile) (tts : List String)
    (quota cs : Nat) (eo : List Cell → List Cell)
    (heo : PermOracle eo) (hq : 0 < quota)
    (hok : ∀ f ∈ files, f.failAfter = none)
    (t : String) (ht : t ∈ tts) :
    (quota ≤ (availableIds t files).length →
      (lookupIds (find_target_flight_ids files tts quota cs eo) t).length = quota ∧
      (lookupIds (find_target_flight_ids files tts quota cs eo) t).Nodup) ∧
    ((availableIds t files).length < quota →
      ∀ x, x ∈ lookupIds (find_target_flight_ids files tts quota cs eo) t ↔
        x ∈ availableIds t files) := by
  have hfinal := scanInv_scanFiles cs heo files (initState tts) [] (scanInv_init hq)
  simp only [List.nil_append] at hfinal
  have havail : availableIds t files = seenIds t (allYielded files) := by
    rw [availableIds, allRows_eq_allYielded hok]
  have hsound := scanSound_scanFiles quota cs heo files (initState tts)
    (fun f hf r hr => mem_allYielded.2 ⟨f, hf, hr⟩)
    ⟨fun u hu => List.mem_dedup.1 hu, fun p hp => absurd hp (List.not_mem_nil p)⟩
  constructor
  · intro hge
    rw [havail] at hge
    have hnotneed : t ∉ ((scanFiles quota cs eo files (initState tts)).1).needed := by
      intro hneed
      obtain ⟨hiff, hlen⟩ := hfinal.inNeeded t hneed
      have hlen2 := nodup_length_eq_of_iff (hfinal.foundNodup t)
        (seenIds_nodup t (allYielded files)) hiff
      omega
    exact ⟨hfinal.doneQuota t ht hnotneed, hfinal.foundNodup t⟩
  · intro hlt x
    rw [havail] at hlt ⊢
    have hneed : t ∈ ((scanFiles quota cs eo files (initState tts)).1).needed := by
      by_contra hnot
      have hqlen := hfinal.doneQuota t ht hnot
      have hsub : ∀ y ∈ lookupIds ((scanFiles quota cs eo files (initState tts)).1).found t,
          y ∈ seenIds t (allYielded files) := by
        intro y hy
        have hmem := lookupIds_mem (List.ne_nil_of_mem hy)
        rcases (hsound.2 _ hmem).2 y hy with ⟨r, hr, hrt, hrf⟩
        exact mem_seenIds.2 ⟨r, hr, hrt, hrf⟩
      have hlen := nodup_subset_length (hfinal.foundNodup t) hsub
      omega
    exact (hfinal.inNeeded t hneed).1 x

/-- Witness for C1 at a concrete input: one readable file with a single
row of type "A", target list ["A"], quota 1. -/
theorem quota_invariant_witness :
    PermOracle id ∧ 0 < 1 ∧
    (∀ f ∈ [CsvFile.mk [Row.mk (some "A") (some "F1") 0] none], f.failAfter = none) ∧
    "A" ∈ ["A"] ∧
    ((1 ≤ (availableIds "A" [CsvFile.mk [Row.mk (some "A") (some "F1") 0] none]).length →
      (lookupIds (find_target_flight_ids
        [CsvFile.mk [Row.mk (some "A") (some "F1") 0] none] ["A"] 1 1 id) "A").length = 1 ∧
      (lookupIds (find_target_flight_ids
        [CsvFile.mk [Row.mk (some "A") (some "F1") 0] none] ["A"] 1 1 id) "A").Nodup) ∧
    ((availableIds "A" [CsvFile.mk [Row.mk (some "A") (some "F1") 0] none]).length < 1 →
      ∀ x, x ∈ lookupIds (find_target_flight_ids
        [CsvFile.mk [Row.mk (some "A") (some "F1") 0] none] ["A"] 1 1 id) "A" ↔
        x ∈ availableIds "A" [CsvFile.mk [Row.mk (some "A") (some "F1") 0] none])) :=
  ⟨permOracle_id, Nat.one_pos, by decide, by decide,
    quota_invariant [CsvFile.mk [Row.mk (some "A") (some "F1") 0] none] ["A"] 1 1 id
      permOracle_id Nat.one_pos (by decide) "A" (by decide)⟩

/-- C7 (size invariant): from any state whose map entries are bounded by
the quota, the bound holds at every later chunk-step boundary, and the
entry of a type no longer in `types_needed` (i.e. one that has reached its
quota) is never changed by further chunks; in particular every entry of
the final discovered map is bounded by the quota. -/
theorem found_size_bounded_and_frozen (quota cs : Nat) (eo : List Cell → List Cell)
    (files : List CsvFile) (tts : List String)
    (cl : List (List Row)) (st : ScanState) (h : SizeBound quota st.found) :
    (SizeBound quota ((cl.foldl (processChunk quota eo) st).found) ∧
      ∀ t, t ∉ st.needed →
        lookupIds ((cl.foldl (processChunk quota eo) st).found) t = lookupIds st.found t ∧
        t ∉ (cl.foldl (processChunk quota eo) st).needed) ∧
    SizeBound quota (find_target_flight_ids files tts quota cs eo) := by
  refine ⟨⟨sizeBound_foldl_processChunk cl st h,
    fun t ht => foldl_processChunk_not_needed quota eo cl st ht⟩, ?_⟩
  exact sizeBound_scanFiles files (initState tts)
    (fun p hp => absurd hp (List.not_mem_nil p))

/-- Witness for C7 at a concrete input: quota 1, one chunk holding two
rows of type "A", started from the initial state. -/
theorem found_size_bounded_and_frozen_witness :
    SizeBound 1 (initState ["A"]).found ∧
    ((SizeBound 1 (([[Row.mk (some "A") (some "F1") 0, Row.mk (some "A") (some "F2") 1]].foldl
        (processChunk 1 id) (initState ["A"])).found) ∧
      ∀ t, t ∉ (initState ["A"]).needed →
        lookupIds (([[Row.mk (some "A") (some "F1") 0,
            Row.mk (some "A") (some "F2") 1]].foldl
          (processChunk 1 id) (initState ["A"])).found) t =
          lookupIds (initState ["A"]).found t ∧
        t ∉ ([[Row.mk (some "A") (some "F1") 0, Row.mk (some "A") (some "F2") 1]].foldl
          (processChunk 1 id) (initState ["A"])).needed) ∧
    SizeBound 1 (find_target_flight_ids
      [CsvFile.mk [Row.mk (some "A") (some "F1") 0] none] ["A"] 1 1 id)) :=
  ⟨fun p hp => absurd hp (List.not_mem_nil p),
    found_size_bounded_and_frozen 1 1 id [CsvFile.mk [Row.mk (some "A") (some "F1") 0] none]
      ["A"] [[Row.mk (some "A") (some "F1") 0, Row.mk (some "A") (some "F2") 1]]
      (initState ["A"]) (fun p hp => absurd hp (List.not_mem_nil p))⟩

/-- C10 (discovery soundness): given any possible set-iteration order,
every key of the map returned by `find_target_flight_ids` is one of the
caller-supplied target types, and every identifier stored for a type was
observed as the `flight_id` of a successfully read (yielded) row of
exactly that type in some input file. -/
theorem discovery_sound (files : List CsvFile) (tts : List String)
    (quota cs : Nat) (eo : List Cell → List Cell) (heo : PermOracle eo) :
    ∀ p ∈ find_target_flight_ids files tts quota cs eo,
      p.1 ∈ tts ∧
      ∀ x ∈ p.2, ∃ f ∈ files, ∃ r ∈ f.yielded, r.type = some p.1 ∧ r.flight_id = x := by
  have hsound := scanSound_scanFiles quota cs heo files (initState tts)
    (fun f hf r hr => mem_allYielded.2 ⟨f, hf, hr⟩)
    ⟨fun u hu => List.mem_dedup.1 hu, fun p hp => absurd hp (List.not_mem_nil p)⟩
  intro p hp
  have hthis := hsound.2 p hp
  refine ⟨hthis.1, fun x hx => ?_⟩
  rcases hthis.2 x hx with ⟨r, hr, hrt, hrf⟩
  rcases mem_allYielded.1 hr with ⟨f, hf, hrf2⟩
  exact ⟨f, hf, r, hrf2, hrt, hrf⟩

/-- Witness for C10 at a concrete input: one file, one row of type "A". -/
theorem discovery_sound_witness :
    PermOracle id ∧
    (∀ p ∈ find_target_flight_ids
        [CsvFile.mk [Row.mk (some "A") (some "F1") 0] none] ["A"] 1 1 id,
      p.1 ∈ ["A"] ∧
      ∀ x ∈ p.2, ∃ f ∈ [CsvFile.mk [Row.mk (some "A") (some "F1") 0] none],
        ∃ r ∈ f.yielded, r.type = some p.1 ∧ r.flight_id = x) :=
  ⟨permOracle_id,
    discovery_sound [CsvFile.mk [Row.mk (some "A") (some "F1") 0] none] ["A"] 1 1 id
      permOracle_id⟩

/-! ### Properties of the sort key order -/

theorem charsLt_irrefl : ∀ l : List Char, charsLt l l = false
  | [] => rfl
  | c :: cs => by
    simp only [charsLt, Nat.lt_irrefl, if_false]
    exact charsLt_irrefl cs

theorem charsLt_asymm : ∀ l1 l2 : List Char,
    charsLt l1 l2 = true → charsLt l2 l1 = false
  | [], [], h => by simp [charsLt] at h
  | [], _ :: _, _ => rfl
  | _ :: _, [], h => by simp [charsLt] at h
  | c :: cs, d :: ds, h => by
    simp only [charsLt] at h ⊢
    by_cases hcd : c.toNat < d.toNat
    · rw [if_neg (Nat.lt_asymm hcd), if_pos hcd]
    · rw [if_neg hcd] at h
      by_cases hdc : d.toNat < c.toNat
      · rw [if_pos hdc] at h
        exact absurd h (by simp)
      · rw [if_neg hdc] at h
        rw [if_neg hdc, if_neg hcd]
        exact charsLt_asymm cs ds h

theorem charsLt_trans : ∀ l1 l2 l3 : List Char,
    charsLt l1 l2 = true → charsLt l2 l3 = true → charsLt l1 l3 = true
  | _, [], [], _, h2 => by simp [charsLt] at h2
  | [], _ :: _, [], _, h2 => by simp [charsLt] at h2
  | [], _, _ :: _, _, _ => rfl
  | _ :: _, [], _, h1, _ => by simp [charsLt] at h1
  | c :: cs, d :: ds, e :: es, h1, h2 => by
    simp only [charsLt] at h1 h2 ⊢
    by_cases hcd : c.toNat < d.toNat
    · by_cases hde : d.toNat < e.toNat
      · rw [if_pos (Nat.lt_trans hcd hde)]
      · rw [if_neg hde] at h2
        by_cases hed : e.toNat < d.toNat
        · rw [if_pos hed] at h2
          exact absurd h2 (by simp)
        · have : d.toNat = e.toNat := by omega
          rw [if_pos (this ▸ hcd)]
    · rw [if_neg hcd] at h1
      by_cases hdc : d.toNat < c.toNat
      · rw [if_pos hdc] at h1
        exact absurd h1 (by simp)
      · rw [if_neg hdc] at h1
        have hce : c.toNat = d.toNat := by omega
        by_cases hde : d.toNat < e.toNat
        · rw [if_pos (hce ▸ hde)]
        · rw [if_neg hde] at h2
          by_cases hed : e.toNat < d.toNat
          · rw [if_pos hed] at h2
            exact absurd h2 (by simp)
          · rw [if_neg hed] at h2
            rw [if_neg (hce ▸ hde), if_neg (fun hh => hed (hce ▸ hh))]
            exact charsLt_trans cs ds es h1 h2

theorem charsLt_eq_of_not : ∀ l1 l2 : List Char,
    charsLt l1 l2 = false → charsLt l2 l1 = false → l1 = l2
  | [], [], _, _ => rfl
  | [], _ :: _, h1, _ => by simp [charsLt] at h1
  | _ :: _, [], _, h2 => by simp [charsLt] at h2
  | c :: cs, d :: ds, h1, h2 => by
    simp only [charsLt] at h1 h2
    by_cases hcd : c.toNat < d.toNat
    · rw [if_pos hcd] at h1
      exact absurd h1 (by simp)
    · rw [if_neg hcd] at h1
      by_cases hdc : d.toNat < c.toNat
      · rw [if_pos hdc] at h2
        exact absurd h2 (by simp)
      · rw [if_neg hdc] at h1
        rw [if_neg hdc, if_neg hcd] at h2
        have hnat : c.toNat = d.toNat := by omega
        have hc : c = d := Char.eq_of_val_eq (UInt32.toNat.inj hnat)
        rw [hc, charsLt_eq_of_not cs ds h1 h2]

theorem strLt_eq_of_not {a b : String} (h1 : strLt a b = false)
    (h2 : strLt b a = false) : a = b := by
  have := charsLt_eq_of_not a.data b.data h1 h2
  cases a
  cases b
  simp_all

theorem cellLe_eq_not_lt (x y : Cell) : cellLe x y = !cellLt y x := by
  cases x <;> cases y <;> simp [cellLe, cellLt]

theorem cellLt_trans {x y z : Cell} (h1 : cellLt x y = true) (h2 : cellLt y z = true) :
    cellLt x z = true := by
  cases x <;> cases y <;> cases z <;> simp_all [cellLt, strLt]
  exact charsLt_trans _ _ _ h1 h2

theorem cellLt_asymm {x y : Cell} (h : cellLt x y = true) : cellLt y x = false := by
  cases x <;> cases y <;> simp_all [cellLt, strLt]
  exact charsLt_asymm _ _ h

theorem cellLt_or_eq_or_gt (x y : Cell) :
    cellLt x y = true ∨ x = y ∨ cellLt y x = true := by
  cases x with
  | none =>
    cases y with
    | none => exact .inr (.inl rfl)
    | some b => exact .inr (.inr (by simp [cellLt]))
  | some a =>
    cases y with
    | none => exact .inl (by simp [cellLt])
    | some b =>
      by_cases h1 : strLt a b = true
      · exact .inl (by simp [cellLt, h1])
      · by_cases h2 : strLt b a = true
        · exact .inr (.inr (by simp [cellLt, h2]))
        · refine .inr (.inl ?_)
          have h1f : strLt a b = false := by
            revert h1
            cases strLt a b <;> simp
          have h2f : strLt b a = false := by
            revert h2
            cases strLt b a <;> simp
          exact congrArg some (strLt_eq_of_not h1f h2f)

theorem cellLe_refl (x : Cell) : cellLe x x = true := by
  rw [cellLe_eq_not_lt]
  cases x with
  | none => rfl
  | some a =>
    show (!cellLt (some a) (some a)) = true
    have : cellLt (some a) (some a) = false := by
      simp [cellLt, strLt, charsLt_irrefl]
    rw [this]
    rfl

theorem cellLe_total (x y : Cell) : (cellLe x y || cellLe y x) = true := by
  rw [cellLe_eq_not_lt, cellLe_eq_not_lt]
  rcases cellLt_or_eq_or_gt x y with h | h | h
  · rw [cellLt_asymm h]
    simp
  · subst h
    have := cellLe_refl x
    rw [cellLe_eq_not_lt] at this
    rw [this]
    simp
  · rw [cellLt_asymm h]
    simp

theorem cellLe_trans {x y z : Cell} (h1 : cellLe x y = true) (h2 : cellLe y z = true) :
    cellLe x z = true := by
  rw [cellLe_eq_not_lt] at h1 h2 ⊢
  simp only [Bool.not_eq_true'] at h1 h2 ⊢
  by_contra hzx
  rw [Bool.not_eq_false] at hzx
  rcases cellLt_or_eq_or_gt x y with h | h | h
  · have := cellLt_trans hzx h
    rw [h2] at this
    exact Bool.false_ne_true this
  · subst h
    rw [h2] at hzx
    exact Bool.false_ne_true hzx
  · rw [h1] at h
    exact Bool.false_ne_true h

theorem rowLe_total (r s : Row) : (rowLe r s || rowLe s r) = true := by
  simp only [rowLe]
  rcases cellLt_or_eq_or_gt r.type s.type with h | h | h
  · rw [h]
    simp
  · rw [h]
    have h1 := cellLe_total r.flight_id s.flight_id
    simp only [decide_eq_true_eq] at h1 ⊢
    rcases Bool.or_eq_true_iff.1 h1 with h2 | h2
    · simp [h2]
    · simp [h2]
  · rw [h]
    simp

theorem rowLe_trans (a b c : Row) (h1 : rowLe a b = true) (h2 : rowLe b c = true) :
    rowLe a c = true := by
  simp only [rowLe, Bool.or_eq_true, Bool.and_eq_true, decide_eq_true_eq] at h1 h2 ⊢
  rcases h1 with h1 | ⟨h1e, h1f⟩
  · rcases h2 with h2 | ⟨h2e, h2f⟩
    · exact .inl (cellLt_trans h1 h2)
    · exact .inl (h2e ▸ h1)
  · rcases h2 with h2 | ⟨h2e, h2f⟩
    · exact .inl (h1e ▸ h2)
    · exact .inr ⟨h1e.trans h2e, cellLe_trans h1f h2f⟩

theorem rowLe_of_keys_eq {r s : Row} (ht : r.type = s.type)
    (hf : r.flight_id = s.flight_id) : rowLe r s = true := by
  simp only [rowLe, Bool.or_eq_true, Bool.and_eq_true, decide_eq_true_eq]
  exact .inr ⟨ht, hf ▸ cellLe_refl _⟩

/-! ### The stable sort: permutation, sortedness, stability -/

theorem insertRow_perm (le : Row → Row → Bool) (r : Row) :
    ∀ l : List Row, (insertRow le r l).Perm (r :: l)
  | [] => List.Perm.refl _
  | s :: rest => by
    simp only [insertRow]
    split
    · exact List.Perm.refl _
    · exact ((insertRow_perm le r rest).cons s).trans (List.Perm.swap r s rest)

theorem sortRows_perm (le : Row → Row → Bool) :
    ∀ l : List Row, (sortRows le l).Perm l
  | [] => List.Perm.refl _
  | r :: rest => by
    simp only [sortRows]
    exact (insertRow_perm le r _).trans ((sortRows_perm le rest).cons r)

theorem mem_sortRows {le : Row → Row → Bool} {l : List Row} {x : Row} :
    x ∈ sortRows le l ↔ x ∈ l :=
  (sortRows_perm le l).mem_iff

theorem insertRow_pairwise {le : Row → Row → Bool}
    (trans : ∀ a b c, le a b = true → le b c = true → le a c = true)
    (total : ∀ a b, (le a b || le b a) = true) (r : Row) :
    ∀ l : List Row, l.Pairwise (fun a b => le a b = true) →
    (insertRow le r l).Pairwise (fun a b => le a b = true)
  | [], _ => List.pairwise_singleton _ r
  | s :: rest, h => by
    simp only [insertRow]
    split
    · rename_i hrs
      refine List.pairwise_cons.2 ⟨?_, h⟩
      intro x hx
      rcases List.mem_cons.1 hx with rfl | hx
      · exact hrs
      · exact trans r s x hrs ((List.pairwise_cons.1 h).1 x hx)
    · rename_i hrs
      have hsr : le s r = true := by
        rcases Bool.or_eq_true_iff.1 (total s r) with hh | hh
        · exact hh
        · exact absurd hh hrs
      refine List.pairwise_cons.2
        ⟨?_, insertRow_pairwise trans total r rest (List.pairwise_cons.1 h).2⟩
      intro x hx
      rcases List.mem_cons.1 ((insertRow_perm le r rest).mem_iff.1 hx) with rfl | hx2
      · exact hsr
      · exact (List.pairwise_cons.1 h).1 x hx2

theorem sortRows_pairwise {le : Row → Row → Bool}
    (trans : ∀ a b c, le a b = true → le b c = true → le a c = true)
    (total : ∀ a b, (le a b || le b a) = true) :
    ∀ l : List Row, (sortRows le l).Pairwise (fun a b => le a b = true)
  | [] => List.Pairwise.nil
  | r :: rest => by
    simp only [sortRows]
    exact insertRow_pairwise trans total r _ (sortRows_pairwise trans total rest)

theorem filter_insertRow {le : Row → Row → Bool} {r : Row} {p : Row → Bool}
    (hcomp : ∀ b, p r = true → p b = true → le r b = true) :
    ∀ l : List Row, (insertRow le r l).filter p =
      if p r then r :: l.filter p else l.filter p
  | [] => by
    simp only [insertRow, List.filter_cons]
  | s :: rest => by
    simp only [insertRow]
    by_cases hrs : le r s = true
    · rw [if_pos hrs, List.filter_cons]
    · rw [if_neg hrs, List.filter_cons,
        filter_insertRow hcomp rest, List.filter_cons]
      by_cases hps : p s = true
      · by_cases hpr : p r = true
        · exact absurd (hcomp s hpr hps) hrs
        · simp [hps, hpr]
      · by_cases hpr : p r = true
        · simp [hps, hpr]
        · simp [hps, hpr]

theorem filter_sortRows {le : Row → Row → Bool} {p : Row → Bool}
    (hcomp : ∀ a b, p a = true → p b = true → le a b = true) :
    ∀ l : List Row, (sortRows le l).filter p = l.filter p
  | [] => rfl
  | r :: rest => by
    simp only [sortRows]
    rw [filter_insertRow (fun b hr hb => hcomp r b hr hb) (sortRows le rest),
      filter_sortRows hcomp rest, List.filter_cons]

/-! ### Characterization of the collection pass -/

theorem mem_allTargetIds {m : FoundMap} {x : Cell} :
    x ∈ allTargetIds m ↔ ∃ p ∈ m, x ∈ p.2 := by
  simp only [allTargetIds, List.mem_dedup, List.mem_flatten, List.mem_map]
  constructor
  · rintro ⟨l, ⟨p, hp, rfl⟩, hx⟩
    exact ⟨p, hp, hx⟩
  · rintro ⟨p, hp, hx⟩
    exact ⟨p.2, ⟨p, hp, rfl⟩, hx⟩

theorem foldl_collectChunk_flatten (ids : List Cell) :
    ∀ (cl : List (List Row)) (acc : List (List Row)),
    (cl.foldl (fun acc2 c =>
      let fc := c.filter (rowMatch ids)
      if fc.isEmpty then acc2 else acc2 ++ [fc]) acc).flatten =
    acc.flatten ++ cl.flatten.filter (rowMatch ids)
  | [], acc => by simp
  | c :: cl', acc => by
    simp only [List.foldl_cons, List.flatten_cons, List.filter_append]
    rw [foldl_collectChunk_flatten ids cl']
    by_cases hfc : (c.filter (rowMatch ids)).isEmpty
    · have : c.filter (rowMatch ids) = [] := List.isEmpty_iff.1 hfc
      simp [hfc, this]
    · rw [if_neg hfc, List.flatten_append]
      simp [List.append_assoc]

theorem collectBatches_flatten (files : List CsvFile) (ids : List Cell) (cs : Nat) :
    (collectBatches files ids cs).flatten = (allYielded files).filter (rowMatch ids) := by
  suffices h : ∀ (fs : List CsvFile) (acc : List (List Row)),
      (fs.foldl (fun acc f =>
        (chunksOf cs f.yielded).foldl (fun acc2 c =>
          let fc := c.filter (rowMatch ids)
          if fc.isEmpty then acc2 else acc2 ++ [fc]) acc) acc).flatten =
      acc.flatten ++ (allYielded fs).filter (rowMatch ids) by
    have := h files []
    simpa [collectBatches] using this
  intro fs
  induction fs with
  | nil => intro acc; simp [allYielded]
  | cons f fs' ih =>
    intro acc
    simp only [List.foldl_cons]
    rw [ih]
    rw [foldl_collectChunk_flatten]
    rw [chunksOf_flatten]
    have : allYielded (f :: fs') = f.yielded ++ allYielded fs' := by
      simp [allYielded]
    rw [this, List.filter_append, List.append_assoc]

theorem collect_flight_data_eq (files : List CsvFile) (m : FoundMap) (cs : Nat) :
    collect_flight_data files m cs =
      sortRows rowLe ((allYielded files).filter (rowMatch (allTargetIds m))) := by
  simp only [collect_flight_data]
  by_cases hids : (allTargetIds m).isEmpty
  · have hnil : allTargetIds m = [] := List.isEmpty_iff.1 hids
    have hfil : (allYielded files).filter (rowMatch (allTargetIds m)) = [] := by
      rw [List.filter_eq_nil_iff]
      intro r _
      rw [hnil]
      simp [rowMatch]
    rw [if_pos hids, hfil]
    rfl
  · rw [if_neg hids]
    by_cases hb : (collectBatches files (allTargetIds m) cs).isEmpty
    · have hbn : collectBatches files (allTargetIds m) cs = [] := List.isEmpty_iff.1 hb
      have hfil : (allYielded files).filter (rowMatch (allTargetIds m)) = [] := by
        rw [← collectBatches_flatten files (allTargetIds m) cs, hbn]
        rfl
      rw [if_pos hb, hfil]
      rfl
    · rw [if_neg hb, collectBatches_flatten]

/-! ### Claim theorems: collection pass -/

/-- C3 (sort order and stability): the final result of
`collect_flight_data` is non-decreasing in the (type, flight_id)
lexicographic order, and the sort is stable: the rows with any fixed
(type, flight_id) key appear in exactly the order they had in the
concatenation of the per-file, per-chunk accumulated batches. -/
theorem collect_sorted_stable (files : List CsvFile) (m : FoundMap) (cs : Nat) :
    (collect_flight_data files m cs).Pairwise (fun r s => rowLe r s = true) ∧
    ∀ tk fk : Cell,
      (collect_flight_data files m cs).filter
        (fun r => decide (r.type = tk) && decide (r.flight_id = fk)) =
      ((collectBatches files (allTargetIds m) cs).flatten).filter
        (fun r => decide (r.type = tk) && decide (r.flight_id = fk)) := by
  rw [collect_flight_data_eq]
  constructor
  · exact sortRows_pairwise rowLe_trans rowLe_total _
  · intro tk fk
    rw [collectBatches_flatten files (allTargetIds m) cs]
    apply filter_sortRows
    intro a b ha hb
    obtain ⟨ha1, ha2⟩ := Bool.and_eq_true_iff.1 ha
    obtain ⟨hb1, hb2⟩ := Bool.and_eq_true_iff.1 hb
    exact rowLe_of_keys_eq ((of_decide_eq_true ha1).trans (of_decide_eq_true hb1).symm)
      ((of_decide_eq_true ha2).trans (of_decide_eq_true hb2).symm)

/-- C2 (containment): with any possible set-iteration order and readable,
unchanged files, (a) every row of the final result carries a discovered
flight identifier, (b) every discovered identifier has at least one row in
the final result, and (c) every row of every input file whose identifier
is in the union of the discovered sets is present in the final result. -/
theorem collect_containment (files : List CsvFile) (tts : List String)
    (quota cs : Nat) (eo : List Cell → List Cell) (heo : PermOracle eo)
    (hok : ∀ f ∈ files, f.failAfter = none) :
    (∀ r ∈ collect_flight_data files (find_target_flight_ids files tts quota cs eo) cs,
      r.flight_id ∈ allTargetIds (find_target_flight_ids files tts quota cs eo)) ∧
    (∀ p ∈ find_target_flight_ids files tts quota cs eo, ∀ x ∈ p.2,
      ∃ r ∈ collect_flight_data files (find_target_flight_ids files tts quota cs eo) cs,
        r.flight_id = x) ∧
    (∀ f ∈ files, ∀ r ∈ f.rows,
      r.flight_id ∈ allTargetIds (find_target_flight_ids files tts quota cs eo) →
      r ∈ collect_flight_data files (find_target_flight_ids files tts quota cs eo) cs) := by
  have hcol := collect_flight_data_eq files (find_target_flight_ids files tts quota cs eo) cs
  have hmem : ∀ r, r ∈ collect_flight_data files
      (find_target_flight_ids files tts quota cs eo) cs ↔
      r ∈ allYielded files ∧
      r.flight_id ∈ allTargetIds (find_target_flight_ids files tts quota cs eo) := by
    intro r
    rw [hcol, mem_sortRows, List.mem_filter]
    constructor
    · rintro ⟨h1, h2⟩
      exact ⟨h1, of_decide_eq_true h2⟩
    · rintro ⟨h1, h2⟩
      exact ⟨h1, decide_eq_true h2⟩
  refine ⟨?_, ?_, ?_⟩
  · intro r hr
    exact ((hmem r).1 hr).2
  · have hsound := scanSound_scanFiles quota cs heo files (initState tts)
      (fun f hf r hr => mem_allYielded.2 ⟨f, hf, hr⟩)
      ⟨fun u hu => List.mem_dedup.1 hu, fun p hp => absurd hp (List.not_mem_nil p)⟩
    intro p hp x hx
    rcases (hsound.2 p hp).2 x hx with ⟨r, hr, hrt, hrf⟩
    refine ⟨r, (hmem r).2 ⟨hr, ?_⟩, hrf⟩
    rw [hrf]
    exact mem_allTargetIds.2 ⟨p, hp, hx⟩
  · intro f hf r hr hrid
    refine (hmem r).2 ⟨mem_allYielded.2 ⟨f, hf, ?_⟩, hrid⟩
    simp [CsvFile.yielded, hok f hf, hr]

/-- Witness for C2 at a concrete input: one readable file with one row of
type "A", quota 1, identity iteration order. -/
theorem collect_containment_witness :
    PermOracle id ∧
    (∀ f ∈ [CsvFile.mk [Row.mk (some "A") (some "F1") 0] none], f.failAfter = none) ∧
    ((∀ r ∈ collect_flight_data [CsvFile.mk [Row.mk (some "A") (some "F1") 0] none]
        (find_target_flight_ids [CsvFile.mk [Row.mk (some "A") (some "F1") 0] none]
          ["A"] 1 1 id) 1,
      r.flight_id ∈ allTargetIds (find_target_flight_ids
        [CsvFile.mk [Row.mk (some "A") (some "F1") 0] none] ["A"] 1 1 id)) ∧
    (∀ p ∈ find_target_flight_ids [CsvFile.mk [Row.mk (some "A") (some "F1") 0] none]
        ["A"] 1 1 id, ∀ x ∈ p.2,
      ∃ r ∈ collect_flight_data [CsvFile.mk [Row.mk (some "A") (some "F1") 0] none]
        (find_target_flight_ids [CsvFile.mk [Row.mk (some "A") (some "F1") 0] none]
          ["A"] 1 1 id) 1, r.flight_id = x) ∧
    (∀ f ∈ [CsvFile.mk [Row.mk (some "A") (some "F1") 0] none], ∀ r ∈ f.rows,
      r.flight_id ∈ allTargetIds (find_target_flight_ids
        [CsvFile.mk [Row.mk (some "A") (some "F1") 0] none] ["A"] 1 1 id) →
      r ∈ collect_flight_data [CsvFile.mk [Row.mk (some "A") (some "F1") 0] none]
        (find_target_flight_ids [CsvFile.mk [Row.mk (some "A") (some "F1") 0] none]
          ["A"] 1 1 id) 1)) :=
  ⟨permOracle_id, by decide,
    collect_containment [CsvFile.mk [Row.mk (some "A") (some "F1") 0] none] ["A"] 1 1 id
      permOracle_id (by decide)⟩

/-! ### The file loop: append and early-exit lemmas -/

theorem scanFiles_cons (quota cs : Nat) (eo : List Cell → List Cell)
    (f : CsvFile) (fs : List CsvFile) (st : ScanState) :
    scanFiles quota cs eo (f :: fs) st =
      if st.needed.isEmpty then (st, [])
      else ((scanFiles quota cs eo fs (scanFile quota cs eo st f)).1,
            f :: (scanFiles quota cs eo fs (scanFile quota cs eo st f)).2) := by
  rw [scanFiles]

theorem scanFiles_needed_empty (quota cs : Nat) (eo : List Cell → List Cell) :
    ∀ (fs : List CsvFile) (st : ScanState), st.needed = [] →
    scanFiles quota cs eo fs st = (st, [])
  | [], st, _ => rfl
  | f :: fs', st, h => by
    rw [scanFiles_cons, if_pos (by simp [h])]

theorem scanFiles_append (quota cs : Nat) (eo : List Cell → List Cell) :
    ∀ (l1 l2 : List CsvFile) (st : ScanState),
    scanFiles quota cs eo (l1 ++ l2) st =
      ((scanFiles quota cs eo l2 (scanFiles quota cs eo l1 st).1).1,
       (scanFiles quota cs eo l1 st).2 ++
         (scanFiles quota cs eo l2 (scanFiles quota cs eo l1 st).1).2)
  | [], l2, st => by simp [scanFiles]
  | f :: l1', l2, st => by
    simp only [List.cons_append]
    rw [scanFiles_cons, scanFiles_cons]
    by_cases h : st.needed.isEmpty
    · rw [if_pos h, if_pos h]
      rw [scanFiles_needed_empty quota cs eo l2 st (List.isEmpty_iff.1 h)]
      simp
    · rw [if_neg h, if_neg h]
      rw [scanFiles_append quota cs eo l1' l2 (scanFile quota cs eo st f)]
      simp

theorem scanFiles_opened_take (quota cs : Nat) (eo : List Cell → List Cell) :
    ∀ (fs : List CsvFile) (st : ScanState),
    ∃ j, j ≤ fs.length ∧ (scanFiles quota cs eo fs st).2 = fs.take j
  | [], st => ⟨0, Nat.le_refl 0, by simp [scanFiles]⟩
  | f :: fs', st => by
    rw [scanFiles_cons]
    by_cases h : st.needed.isEmpty
    · exact ⟨0, Nat.zero_le _, by simp [h]⟩
    · obtain ⟨j, hj, heq⟩ := scanFiles_opened_take quota cs eo fs'
        (scanFile quota cs eo st f)
      refine ⟨j + 1, by simpa using hj, ?_⟩
      rw [if_neg h]
      simp [heq]

/-- C4 (early exit): if all target types have reached their quota after
scanning the first `k` of the `n > k` input files, then the discovery pass
opens only a prefix of those first `k` files, while the collection pass
opens every file in the list (it has no early exit; the target-id set is
non-empty because every non-empty target list with positive quota yields
quota-sized sets once `types_needed` is exhausted). -/
theorem early_exit_discovery_full_collection (files : List CsvFile)
    (tts : List String) (quota cs : Nat) (eo : List Cell → List Cell)
    (heo : PermOracle eo) (hq : 0 < quota) (hts : tts ≠ [])
    (k : Nat) (hk : k < files.length)
    (hdone : ((scanFiles quota cs eo (files.take k) (initState tts)).1).needed = []) :
    (∃ j, j ≤ k ∧ discoveryOpened files tts quota cs eo = files.take j) ∧
    collect_opened files (find_target_flight_ids files tts quota cs eo) = files := by
  have hsplit := scanFiles_append quota cs eo (files.take k) (files.drop k) (initState tts)
  rw [List.take_append_drop] at hsplit
  have hrest := scanFiles_needed_empty quota cs eo (files.drop k)
    ((scanFiles quota cs eo (files.take k) (initState tts)).1) hdone
  constructor
  · obtain ⟨j, hj, heq⟩ := scanFiles_opened_take quota cs eo (files.take k)
      (initState tts)
    have hjk : j ≤ k := le_trans hj (by simp)
    refine ⟨j, hjk, ?_⟩
    show (scanFiles quota cs eo files (initState tts)).2 = files.take j
    rw [hsplit]
    simp only [hrest]
    rw [heq, List.take_take, List.append_nil]
    rw [Nat.min_eq_left hjk]
  · have hstate : (scanFiles quota cs eo files (initState tts)).1 =
        (scanFiles quota cs eo (files.take k) (initState tts)).1 := by
      rw [hsplit]
      simp only [hrest]
    have hfinal := scanInv_scanFiles cs heo files (initState tts) [] (scanInv_init hq)
    simp only [List.nil_append] at hfinal
    obtain ⟨t, ht⟩ := List.exists_mem_of_ne_nil tts hts
    have hnotin : t ∉ ((scanFiles quota cs eo files (initState tts)).1).needed := by
      rw [hstate, hdone]
      exact List.not_mem_nil t
    have hlen := hfinal.doneQuota t ht hnotin
    have hne : lookupIds ((scanFiles quota cs eo files (initState tts)).1).found t ≠ [] := by
      intro hh
      rw [hh] at hlen
      simp at hlen
      omega
    obtain ⟨x, hx⟩ := List.exists_mem_of_ne_nil _ hne
    have hxin : x ∈ allTargetIds (find_target_flight_ids files tts quota cs eo) :=
      mem_allTargetIds.2 ⟨_, lookupIds_mem hne, hx⟩
    have hids : ¬ (allTargetIds (find_target_flight_ids files tts quota cs eo)).isEmpty := by
      intro hh
      rw [List.isEmpty_iff.1 hh] at hxin
      exact absurd hxin (List.not_mem_nil x)
    simp [collect_opened, hids]

/-- Witness for C4 at a concrete input: two files, quota reached on the
first; the discovery pass opens only file 1, the collection pass both. -/
theorem early_exit_witness :
    PermOracle id ∧ 0 < 1 ∧ (["A"] : List String) ≠ [] ∧
    1 < ([CsvFile.mk [Row.mk (some "A") (some "F1") 0] none,
          CsvFile.mk [Row.mk (some "A") (some "F2") 1] none] : List CsvFile).length ∧
    ((scanFiles 1 1 id ([CsvFile.mk [Row.mk (some "A") (some "F1") 0] none,
        CsvFile.mk [Row.mk (some "A") (some "F2") 1] none].take 1)
        (initState ["A"])).1).needed = [] ∧
    ((∃ j, j ≤ 1 ∧ discoveryOpened
        [CsvFile.mk [Row.mk (some "A") (some "F1") 0] none,
         CsvFile.mk [Row.mk (some "A") (some "F2") 1] none] ["A"] 1 1 id =
        ([CsvFile.mk [Row.mk (some "A") (some "F1") 0] none,
          CsvFile.mk [Row.mk (some "A") (some "F2") 1] none].take j)) ∧
      collect_opened
        [CsvFile.mk [Row.mk (some "A") (some "F1") 0] none,
         CsvFile.mk [Row.mk (some "A") (some "F2") 1] none]
        (find_target_flight_ids
          [CsvFile.mk [Row.mk (some "A") (some "F1") 0] none,
           CsvFile.mk [Row.mk (some "A") (some "F2") 1] none] ["A"] 1 1 id) =
        [CsvFile.mk [Row.mk (some "A") (some "F1") 0] none,
         CsvFile.mk [Row.mk (some "A") (some "F2") 1] none]) :=
  ⟨permOracle_id, Nat.one_pos, by decide, by decide, by decide,
    early_exit_discovery_full_collection
      [CsvFile.mk [Row.mk (some "A") (some "F1") 0] none,
       CsvFile.mk [Row.mk (some "A") (some "F2") 1] none] ["A"] 1 1 id
      permOracle_id Nat.one_pos (by decide) 1 (by decide) (by decide)⟩

/-! ### Concrete scenario fixtures (three files, five flights of type "A"
and five of type "B" each, quota 2 for type "A" only) -/

/-- A fully populated demo row. -/
def demoRow (t f : String) (p : Nat) : Row := ⟨some t, some f, p⟩

/-- A demo file holding rows of five "A"-flights (A1..A5, two rows each)
interleaved with rows of five "B"-flights (B1..B5); `base` makes the
payloads of the three files distinct. -/
def demoFile (base : Nat) : CsvFile :=
  ⟨[demoRow "A" "A1" base, demoRow "B" "B1" (base+1), demoRow "A" "A2" (base+2),
    demoRow "B" "B2" (base+3), demoRow "A" "A3" (base+4), demoRow "B" "B3" (base+5),
    demoRow "A" "A4" (base+6), demoRow "B" "B4" (base+7), demoRow "A" "A5" (base+8),
    demoRow "B" "B5" (base+9), demoRow "A" "A1" (base+10), demoRow "A" "A2" (base+11),
    demoRow "A" "A3" (base+12), demoRow "A" "A4" (base+13), demoRow "A" "A5" (base+14)],
   none⟩

/-- The three demo files. -/
def demoFiles : List CsvFile := [demoFile 0, demoFile 100, demoFile 200]

/-- C9 (concrete scenario): on three files each holding five "A"-flights
and five "B"-flights, with quota 2 and target list ["A"] (chunk size 4,
insertion iteration order), the discovered map has exactly the one key
"A" with two flight identifiers; the final result consists of exactly the
rows of those two flights from all three files, sorted by flight
identifier; and no row of type "B" appears. -/
theorem demo_scenario :
    find_target_flight_ids demoFiles ["A"] 2 4 id = [("A", [some "A1", some "A2"])] ∧
    collect_flight_data demoFiles (find_target_flight_ids demoFiles ["A"] 2 4 id) 4 =
      [demoRow "A" "A1" 0, demoRow "A" "A1" 10, demoRow "A" "A1" 100,
       demoRow "A" "A1" 110, demoRow "A" "A1" 200, demoRow "A" "A1" 210,
       demoRow "A" "A2" 2, demoRow "A" "A2" 11, demoRow "A" "A2" 102,
       demoRow "A" "A2" 111, demoRow "A" "A2" 202, demoRow "A" "A2" 211] ∧
    (collect_flight_data demoFiles (find_target_flight_ids demoFiles ["A"] 2 4 id) 4).all
      (fun r => r.type == some "A") = true := by
  refine ⟨by decide, by decide, by decide⟩

/-! ### Claim theorems: missing-field and failure semantics -/

/-- C8 counterexample: a row with a present target type but a missing
`flight_id` is NOT excluded by the match filters — the pass-1 filter tests
only the `type` column, so the row is processed, its null identifier is
recorded in the discovered map, and (since pandas `isin` matches NaN) the
row reappears in the final result of pass 2. -/
theorem missing_flight_id_not_excluded :
    find_target_flight_ids [CsvFile.mk [Row.mk (some "A") none 0] none]
      ["A"] 1 10 id = [("A", [none])] ∧
    collect_flight_data [CsvFile.mk [Row.mk (some "A") none 0] none]
      (find_target_flight_ids [CsvFile.mk [Row.mk (some "A") none 0] none]
        ["A"] 1 10 id) 10 = [Row.mk (some "A") none 0] := by
  refine ⟨by decide, by decide⟩

/-- C8 (amended): missing fields never raise (the model is total) and the
filters behave as follows — a row with a missing `type` is invisible to the
discovery pass (removing all such rows from a chunk does not change the
chunk step at all), and the collection pass keeps exactly the rows whose
`flight_id` is a discovered identifier, so a row with a missing
`flight_id` is excluded whenever the null identifier was not discovered;
however the pass-1 filter tests only the `type` column, so rows with a
target type and missing `flight_id` are processed (see the
counterexample). -/
theorem missing_field_filter_semantics (quota : Nat)
    (eo : List Cell → List Cell) (st : ScanState) (c : List Row)
    (files : List CsvFile) (m : FoundMap) (cs : Nat) :
    processChunk quota eo st (c.filter (fun r => decide (r.type ≠ none))) =
      processChunk quota eo st c ∧
    (∀ r ∈ collect_flight_data files m cs, r.flight_id ∈ allTargetIds m) := by
  constructor
  · simp only [processChunk]
    have hfil : (c.filter (fun r => decide (r.type ≠ none))).filter (fun r =>
        match r.type with
        | some t => decide (t ∈ st.needed)
        | none => false) =
        c.filter (fun r =>
        match r.type with
        | some t => decide (t ∈ st.needed)
        | none => false) := by
      rw [List.filter_filter]
      apply List.filter_congr
      intro r _
      cases hr : r.type <;> simp [hr]
    rw [hfil]
  · intro r hr
    rw [collect_flight_data_eq] at hr
    have hr2 := (List.mem_filter.1 (mem_sortRows.1 hr)).2
    exact of_decide_eq_true hr2

/-- C6 counterexample: a file that fails mid-stream after yielding a full
chunk does contribute data — the identifier `F1` read from the yielded
chunk of the failing file is discovered in pass 1, and the corresponding
row is retained by pass 2, contradicting the claim that no data from a
failed file is kept. -/
theorem failed_file_data_retained :
    find_target_flight_ids
      [CsvFile.mk [Row.mk (some "A") (some "F1") 0, Row.mk (some "A") (some "F2") 1]
        (some 1)] ["A"] 2 1 id = [("A", [some "F1"])] ∧
    collect_flight_data
      [CsvFile.mk [Row.mk (some "A") (some "F1") 0, Row.mk (some "A") (some "F2") 1]
        (some 1)]
      (find_target_flight_ids
        [CsvFile.mk [Row.mk (some "A") (some "F1") 0, Row.mk (some "A") (some "F2") 1]
          (some 1)] ["A"] 2 1 id) 1 = [Row.mk (some "A") (some "F1") 0] := by
  refine ⟨by decide, by decide⟩

/-- C6 (amended): a failing file is abandoned and never fatal — both
passes behave exactly as if the file contained only the rows yielded
before the failure: a file that fails to open (yields nothing) contributes
nothing to either pass, and a file that fails mid-stream contributes
exactly its yielded prefix; scanning then proceeds with the remaining
files. -/
theorem failure_semantics (f : CsvFile) (k : Nat) (hfail : f.failAfter = some k)
    (fs : List CsvFile) (tts : List String) (quota cs : Nat)
    (eo : List Cell → List Cell) (m : FoundMap) :
    find_target_flight_ids (f :: fs) tts quota cs eo =
      find_target_flight_ids (CsvFile.mk (f.rows.take k) none :: fs) tts quota cs eo ∧
    collect_flight_data (f :: fs) m cs =
      collect_flight_data (CsvFile.mk (f.rows.take k) none :: fs) m cs ∧
    (k = 0 →
      find_target_flight_ids (f :: fs) tts quota cs eo =
        find_target_flight_ids fs tts quota cs eo ∧
      collect_flight_data (f :: fs) m cs = collect_flight_data fs m cs) := by
  have hyield : f.yielded = (CsvFile.mk (f.rows.take k) none).yielded := by
    simp [CsvFile.yielded, hfail]
  refine ⟨?_, ?_, ?_⟩
  · simp only [find_target_flight_ids]
    rw [scanFiles_cons, scanFiles_cons]
    simp only [scanFile, hyield]
    by_cases h : (initState tts).needed.isEmpty
    · rw [if_pos h, if_pos h]
    · rw [if_neg h, if_neg h]
  · rw [collect_flight_data_eq, collect_flight_data_eq]
    have hall : allYielded (f :: fs) = allYielded (CsvFile.mk (f.rows.take k) none :: fs) := by
      simp only [allYielded, List.map_cons, hyield]
    rw [hall]
  · intro hk
    subst hk
    have hempty : f.yielded = [] := by simp [CsvFile.yielded, hfail]
    constructor
    · simp only [find_target_flight_ids]
      rw [scanFiles_cons]
      simp only [scanFile, hempty]
      by_cases h : (initState tts).needed.isEmpty
      · rw [if_pos h]
        rw [scanFiles_needed_empty quota cs eo fs (initState tts) (List.isEmpty_iff.1 h)]
      · rw [if_neg h]
        have hch : chunksOf cs ([] : List Row) = [] := rfl
        rw [hch]
        rfl
    · rw [collect_flight_data_eq, collect_flight_data_eq]
      have : allYielded (f :: fs) = allYielded fs := by
        simp only [allYielded, List.map_cons, hempty]
        rfl
      rw [this]

/-- Witness for the amended C6 at a concrete input: a file that fails
after one yielded row, followed by a readable file. -/
theorem failure_semantics_witness :
    (CsvFile.mk [Row.mk (some "A") (some "F1") 0, Row.mk (some "A") (some "F2") 1]
      (some 1)).failAfter = some 1 ∧
    (find_target_flight_ids
        [CsvFile.mk [Row.mk (some "A") (some "F1") 0, Row.mk (some "A") (some "F2") 1]
          (some 1),
         CsvFile.mk [Row.mk (some "A") (some "F3") 2] none] ["A"] 2 1 id =
      find_target_flight_ids
        [CsvFile.mk ([Row.mk (some "A") (some "F1") 0,
            Row.mk (some "A") (some "F2") 1].take 1) none,
         CsvFile.mk [Row.mk (some "A") (some "F3") 2] none] ["A"] 2 1 id ∧
    collect_flight_data
        [CsvFile.mk [Row.mk (some "A") (some "F1") 0, Row.mk (some "A") (some "F2") 1]
          (some 1),
         CsvFile.mk [Row.mk (some "A") (some "F3") 2] none] [("A", [some "F1"])] 1 =
      collect_flight_data
        [CsvFile.mk ([Row.mk (some "A") (some "F1") 0,
            Row.mk (some "A") (some "F2") 1].take 1) none,
         CsvFile.mk [Row.mk (some "A") (some "F3") 2] none] [("A", [some "F1"])] 1 ∧
    (1 = 0 →
      find_target_flight_ids
          [CsvFile.mk [Row.mk (some "A") (some "F1") 0, Row.mk (some "A") (some "F2") 1]
            (some 1),
           CsvFile.mk [Row.mk (some "A") (some "F3") 2] none] ["A"] 2 1 id =
        find_target_flight_ids [CsvFile.mk [Row.mk (some "A") (some "F3") 2] none]
          ["A"] 2 1 id ∧
      collect_flight_data
          [CsvFile.mk [Row.mk (some "A") (some "F1") 0, Row.mk (some "A") (some "F2") 1]
            (some 1),
           CsvFile.mk [Row.mk (some "A") (some "F3") 2] none] [("A", [some "F1"])] 1 =
        collect_flight_data [CsvFile.mk [Row.mk (some "A") (some "F3") 2] none]
          [("A", [some "F1"])] 1)) :=
  ⟨rfl,
    failure_semantics
      (CsvFile.mk [Row.mk (some "A") (some "F1") 0, Row.mk (some "A") (some "F2") 1]
        (some 1)) 1 rfl
      [CsvFile.mk [Row.mk (some "A") (some "F3") 2] none] ["A"] 2 1 id
      [("A", [some "F1"])]⟩

/-! ### Determinism up to the set-iteration order -/

/-- C5 counterexample: with the same input file and configuration, two
possible set-iteration orders (insertion order and its reverse — Python
string hashing is randomized across processes) make the pipeline keep a
different flight after the quota truncation, producing different output:
the run is not a function of the input files and configuration alone. -/
theorem pipeline_not_deterministic :
    PermOracle id ∧ PermOracle List.reverse ∧
    process_flight_csvs
      [CsvFile.mk [Row.mk (some "A") (some "F1") 0, Row.mk (some "A") (some "F2") 1]
        none] ["A"] 1 10 id ≠
    process_flight_csvs
      [CsvFile.mk [Row.mk (some "A") (some "F1") 0, Row.mk (some "A") (some "F2") 1]
        none] ["A"] 1 10 List.reverse :=
  ⟨permOracle_id, permOracle_reverse, by decide⟩

/-- Relation between the scan states of two runs of the discovery pass that
differ only in the set-iteration order: equal `types_needed`, equal map
keys, per-type identifier sets equal up to permutation, duplicate-free and
sound with respect to the yielded rows. -/
def BisimInv (tts : List String) (files : List CsvFile) (st1 st2 : ScanState) : Prop :=
  st1.needed = st2.needed ∧
  st1.needed.Nodup ∧
  (∀ t ∈ st1.needed, t ∈ tts) ∧
  st1.found.map Prod.fst = st2.found.map Prod.fst ∧
  (st1.found.map Prod.fst).Nodup ∧
  (∀ t, (lookupIds st1.found t).Perm (lookupIds st2.found t)) ∧
  (∀ t, (lookupIds st1.found t).Nodup) ∧
  (∀ t x, x ∈ lookupIds st1.found t → x ∈ seenIds t (allYielded files))

theorem insertIds_perm {cur1 cur2 new : List Cell} (h : cur1.Perm cur2) :
    (insertIds cur1 new).Perm (insertIds cur2 new) := by
  unfold insertIds
  have hfil : new.filter (fun x => decide (x ∉ cur1)) =
      new.filter (fun x => decide (x ∉ cur2)) := by
    apply List.filter_congr
    intro x _
    simp [h.mem_iff]
  rw [hfil]
  exact h.append_right _

theorem keys_nodup_updateAssoc {m : FoundMap} {t : String} {v : List Cell}
    (h : (m.map Prod.fst).Nodup) : ((updateAssoc m t v).map Prod.fst).Nodup := by
  rw [keys_updateAssoc]
  split
  · exact h
  · rename_i hnot
    refine List.Nodup.append h (List.nodup_singleton t) ?_
    intro x hx hx2
    rw [List.mem_singleton] at hx2
    subst hx2
    exact hnot hx

theorem mem_allTargetIds_lookup {m : FoundMap} (hk : (m.map Prod.fst).Nodup)
    {x : Cell} : x ∈ allTargetIds m ↔ ∃ t, x ∈ lookupIds m t := by
  rw [mem_allTargetIds]
  constructor
  · rintro ⟨p, hp, hx⟩
    refine ⟨p.1, ?_⟩
    rw [lookupIds_eq_of_mem hk (show (p.1, p.2) ∈ m from hp)]
    exact hx
  · rintro ⟨t, hx⟩
    exact ⟨(t, lookupIds m t), lookupIds_mem (List.ne_nil_of_mem hx), hx⟩

theorem bisim_stepType {tts : List String} {files : List CsvFile} {quota : Nat}
    {eo1 eo2 : List Cell → List Cell} {flt : List Row} {st1 st2 : ScanState}
    {t : String}
    (heo1 : PermOracle eo1) (heo2 : PermOracle eo2)
    (hflt : ∀ r ∈ flt, r ∈ allYielded files)
    (hbound : ∀ u ∈ tts, (seenIds u (allYielded files)).length ≤ quota)
    (ht : t ∈ tts) (h : BisimInv tts files st1 st2) :
    BisimInv tts files (stepType quota eo1 flt st1 t) (stepType quota eo2 flt st2 t) := by
  obtain ⟨hneed, hnodup, hsub, hkeys, hknd, hperm, hnd, hsound⟩ := h
  by_cases hemp : (typeRowsIn t flt).isEmpty
  · simp only [stepType]
    rw [if_pos hemp, if_pos hemp]
    exact ⟨hneed, hnodup, hsub, hkeys, hknd, hperm, hnd, hsound⟩
  · have hcurp : (insertIds (lookupIds st1.found t)
        ((List.map (fun r => r.flight_id) (typeRowsIn t flt)).dedup)).Perm
        (insertIds (lookupIds st2.found t)
        ((List.map (fun r => r.flight_id) (typeRowsIn t flt)).dedup)) :=
      insertIds_perm (hperm t)
    have hlen := hcurp.length_eq
    have hcnd : (insertIds (lookupIds st1.found t)
        ((List.map (fun r => r.flight_id) (typeRowsIn t flt)).dedup)).Nodup :=
      nodup_insertIds (hnd t) (List.nodup_dedup _)
    have hcsub : ∀ x ∈ insertIds (lookupIds st1.found t)
        ((List.map (fun r => r.flight_id) (typeRowsIn t flt)).dedup),
        x ∈ seenIds t (allYielded files) := by
      intro x hx
      rcases mem_insertIds.1 hx with hx | hx
      · exact hsound t x hx
      · exact mem_seenIds_mono hflt hx
    by_cases hq : quota ≤ (insertIds (lookupIds st1.found t)
        ((List.map (fun r => r.flight_id) (typeRowsIn t flt)).dedup)).length
    · have hq2 : quota ≤ (insertIds (lookupIds st2.found t)
          ((List.map (fun r => r.flight_id) (typeRowsIn t flt)).dedup)).length :=
        hlen ▸ hq
      have hexact : (insertIds (lookupIds st1.found t)
          ((List.map (fun r => r.flight_id) (typeRowsIn t flt)).dedup)).length = quota :=
        Nat.le_antisymm (le_trans (nodup_subset_length hcnd hcsub) (hbound t ht)) hq
      have hv1 : ((eo1 (insertIds (lookupIds st1.found t)
          ((List.map (fun r => r.flight_id) (typeRowsIn t flt)).dedup))).take quota).Perm
          (insertIds (lookupIds st1.found t)
          ((List.map (fun r => r.flight_id) (typeRowsIn t flt)).dedup)) := by
        rw [List.take_of_length_le (by rw [(heo1 _).length_eq, hexact])]
        exact heo1 _
      have hv2 : ((eo2 (insertIds (lookupIds st2.found t)
          ((List.map (fun r => r.flight_id) (typeRowsIn t flt)).dedup))).take quota).Perm
          (insertIds (lookupIds st2.found t)
          ((List.map (fun r => r.flight_id) (typeRowsIn t flt)).dedup)) := by
        rw [List.take_of_length_le (by rw [(heo2 _).length_eq, ← hlen, hexact])]
        exact heo2 _
      simp only [stepType]
      rw [if_neg hemp, if_neg hemp, if_pos hq, if_pos hq2]
      refine ⟨by rw [hneed], hnodup.erase t,
        fun u hu => hsub u (List.mem_of_mem_erase hu), ?_, keys_nodup_updateAssoc hknd,
        ?_, ?_, ?_⟩
      · simp only [keys_updateAssoc, hkeys]
      · intro t'
        by_cases ht' : t' = t
        · subst ht'
          rw [lookupIds_updateAssoc_self, lookupIds_updateAssoc_self]
          exact hv1.trans (hcurp.trans hv2.symm)
        · rw [lookupIds_updateAssoc_other ht', lookupIds_updateAssoc_other ht']
          exact hperm t'
      · intro t'
        by_cases ht' : t' = t
        · subst ht'
          rw [lookupIds_updateAssoc_self]
          exact hv1.symm.nodup hcnd
        · rw [lookupIds_updateAssoc_other ht']
          exact hnd t'
      · intro t' x hx
        by_cases ht' : t' = t
        · subst ht'
          rw [lookupIds_updateAssoc_self] at hx
          exact hcsub x (hv1.mem_iff.1 hx)
        · rw [lookupIds_updateAssoc_other ht'] at hx
          exact hsound t' x hx
    · have hq2 : ¬ quota ≤ (insertIds (lookupIds st2.found t)
          ((List.map (fun r => r.flight_id) (typeRowsIn t flt)).dedup)).length :=
        hlen ▸ hq
      simp only [stepType]
      rw [if_neg hemp, if_neg hemp, if_neg hq, if_neg hq2]
      refine ⟨hneed, hnodup, hsub, ?_, keys_nodup_updateAssoc hknd, ?_, ?_, ?_⟩
      · simp only [keys_updateAssoc, hkeys]
      · intro t'
        by_cases ht' : t' = t
        · subst ht'
          rw [lookupIds_updateAssoc_self, lookupIds_updateAssoc_self]
          exact hcurp
        · rw [lookupIds_updateAssoc_other ht', lookupIds_updateAssoc_other ht']
          exact hperm t'
      · intro t'
        by_cases ht' : t' = t
        · subst ht'
          rw [lookupIds_updateAssoc_self]
          exact hcnd
        · rw [lookupIds_updateAssoc_other ht']
          exact hnd t'
      · intro t' x hx
        by_cases ht' : t' = t
        · subst ht'
          rw [lookupIds_updateAssoc_self] at hx
          exact hcsub x hx
        · rw [lookupIds_updateAssoc_other ht'] at hx
          exact hsound t' x hx

theorem bisim_foldl_stepType {tts : List String} {files : List CsvFile} {quota : Nat}
    {eo1 eo2 : List Cell → List Cell} {flt : List Row}
    (heo1 : PermOracle eo1) (heo2 : PermOracle eo2)
    (hflt : ∀ r ∈ flt, r ∈ allYielded files)
    (hbound : ∀ u ∈ tts, (seenIds u (allYielded files)).length ≤ quota) :
    ∀ (ts : List String) (st1 st2 : ScanState), (∀ u ∈ ts, u ∈ tts) →
    BisimInv tts files st1 st2 →
    BisimInv tts files (ts.foldl (stepType quota eo1 flt) st1)
      (ts.foldl (stepType quota eo2 flt) st2)
  | [], _, _, _, h => h
  | t'' :: ts', st1, st2, hts, h => by
    simp only [List.foldl_cons]
    exact bisim_foldl_stepType heo1 heo2 hflt hbound ts' _ _
      (fun u hu => hts u (List.mem_cons.2 (.inr hu)))
      (bisim_stepType heo1 heo2 hflt hbound (hts t'' (List.mem_cons_self _ _)) h)

theorem bisim_processChunk {tts : List String} {files : List CsvFile} {quota : Nat}
    {eo1 eo2 : List Cell → List Cell} {st1 st2 : ScanState} {c : List Row}
    (heo1 : PermOracle eo1) (heo2 : PermOracle eo2)
    (hc : ∀ r ∈ c, r ∈ allYielded files)
    (hbound : ∀ u ∈ tts, (seenIds u (allYielded files)).length ≤ quota)
    (h : BisimInv tts files st1 st2) :
    BisimInv tts files (processChunk quota eo1 st1 c) (processChunk quota eo2 st2 c) := by
  have hneed := h.1
  simp only [processChunk]
  rw [← hneed]
  by_cases hf : (c.filter (fun r =>
      match r.type with
      | some t => decide (t ∈ st1.needed)
      | none => false)).isEmpty
  · rw [if_pos hf, if_pos hf]
    exact h
  · rw [if_neg hf, if_neg hf]
    exact bisim_foldl_stepType heo1 heo2
      (fun r hr => hc r (List.mem_of_mem_filter hr)) hbound
      st1.needed st1 st2 h.2.2.1 h

theorem bisim_foldl_processChunk {tts : List String} {files : List CsvFile}
    {quota : Nat} {eo1 eo2 : List Cell → List Cell}
    (heo1 : PermOracle eo1) (heo2 : PermOracle eo2)
    (hbound : ∀ u ∈ tts, (seenIds u (allYielded files)).length ≤ quota) :
    ∀ (cl : List (List Row)) (st1 st2 : ScanState),
    (∀ c ∈ cl, ∀ r ∈ c, r ∈ allYielded files) →
    BisimInv tts files st1 st2 →
    BisimInv tts files (cl.foldl (processChunk quota eo1) st1)
      (cl.foldl (processChunk quota eo2) st2)
  | [], _, _, _, h => h
  | c :: cl', st1, st2, hcl, h => by
    simp only [List.foldl_cons]
    exact bisim_foldl_processChunk heo1 heo2 hbound cl' _ _
      (fun c' hc' => hcl c' (List.mem_cons.2 (.inr hc')))
      (bisim_processChunk heo1 heo2 (hcl c (List.mem_cons_self _ _)) hbound h)

theorem bisim_scanFiles {tts : List String} {files : List CsvFile} {quota : Nat}
    (cs : Nat) {eo1 eo2 : List Cell → List Cell}
    (heo1 : PermOracle eo1) (heo2 : PermOracle eo2)
    (hbound : ∀ u ∈ tts, (seenIds u (allYielded files)).length ≤ quota) :
    ∀ (fs : List CsvFile) (st1 st2 : ScanState),
    (∀ f ∈ fs, ∀ r ∈ f.yielded, r ∈ allYielded files) →
    BisimInv tts files st1 st2 →
    BisimInv tts files (scanFiles quota cs eo1 fs st1).1 (scanFiles quota cs eo2 fs st2).1
  | [], _, _, _, h => h
  | f :: fs', st1, st2, hfs, h => by
    rw [scanFiles_cons, scanFiles_cons]
    have hneed := h.1
    rw [← hneed]
    by_cases hemp : st1.needed.isEmpty
    · rw [if_pos hemp, if_pos hemp]
      exact h
    · rw [if_neg hemp, if_neg hemp]
      refine bisim_scanFiles cs heo1 heo2 hbound fs' _ _
        (fun f' hf' => hfs f' (List.mem_cons.2 (.inr hf'))) ?_
      simp only [scanFile]
      exact bisim_foldl_processChunk heo1 heo2 hbound _ st1 st2
        (fun c hc r hr => hfs f (List.mem_cons_self _ _) r (mem_of_mem_chunksOf hc hr)) h

/-- C5 (amended): the pipeline output is a deterministic function of the
input files, the configuration AND the set-iteration order; byte-identical
output across runs is guaranteed whenever the truncation never has to
discard candidates — that is, whenever no target type has more than
`quota` distinct flight identifiers in the readable input — but not in
general (see the counterexample). -/
theorem pipeline_deterministic_without_truncation (files : List CsvFile)
    (tts : List String) (quota cs : Nat) (eo1 eo2 : List Cell → List Cell)
    (heo1 : PermOracle eo1) (heo2 : PermOracle eo2)
    (hbound : ∀ t ∈ tts, (seenIds t (allYielded files)).length ≤ quota) :
    process_flight_csvs files tts quota cs eo1 =
      process_flight_csvs files tts quota cs eo2 := by
  have hinit : BisimInv tts files (initState tts) (initState tts) :=
    ⟨rfl, List.nodup_dedup _, fun u hu => List.mem_dedup.1 hu, rfl, List.nodup_nil,
      fun t => List.Perm.refl _, fun t => List.nodup_nil,
      fun t x hx => absurd hx (List.not_mem_nil x)⟩
  have hb := bisim_scanFiles cs heo1 heo2 hbound files (initState tts) (initState tts)
    (fun f hf r hr => mem_allYielded.2 ⟨f, hf, hr⟩) hinit
  obtain ⟨-, -, -, hkeys, hknd, hperm, -, -⟩ := hb
  have hknd2 : (((scanFiles quota cs eo2 files (initState tts)).1.found).map
      Prod.fst).Nodup := hkeys ▸ hknd
  have hidmem : ∀ x,
      x ∈ allTargetIds (find_target_flight_ids files tts quota cs eo1) ↔
      x ∈ allTargetIds (find_target_flight_ids files tts quota cs eo2) := by
    intro x
    rw [show find_target_flight_ids files tts quota cs eo1 =
        (scanFiles quota cs eo1 files (initState tts)).1.found from rfl,
      show find_target_flight_ids files tts quota cs eo2 =
        (scanFiles quota cs eo2 files (initState tts)).1.found from rfl,
      mem_allTargetIds_lookup hknd, mem_allTargetIds_lookup hknd2]
    constructor
    · rintro ⟨t, hx⟩
      exact ⟨t, (hperm t).mem_iff.1 hx⟩
    · rintro ⟨t, hx⟩
      exact ⟨t, (hperm t).mem_iff.2 hx⟩
  simp only [process_flight_csvs]
  rw [collect_flight_data_eq, collect_flight_data_eq]
  have hfil : (allYielded files).filter
      (rowMatch (allTargetIds (find_target_flight_ids files tts quota cs eo1))) =
      (allYielded files).filter
      (rowMatch (allTargetIds (find_target_flight_ids files tts quota cs eo2))) := by
    apply List.filter_congr
    intro r _
    simp only [rowMatch]
    exact decide_eq_decide.2 (hidmem r.flight_id)
  rw [hfil]

/-- Witness for the amended C5 at a concrete input on which the bound
holds: one file with a single distinct identifier of the single target
type, quota 1; insertion order and reversed order agree. -/
theorem pipeline_deterministic_witness :
    PermOracle id ∧ PermOracle List.reverse ∧
    (∀ t ∈ ["A"], (seenIds t (allYielded
      [CsvFile.mk [Row.mk (some "A") (some "F1") 0, Row.mk (some "A") (some "F1") 1]
        none])).length ≤ 1) ∧
    process_flight_csvs
      [CsvFile.mk [Row.mk (some "A") (some "F1") 0, Row.mk (some "A") (some "F1") 1]
        none] ["A"] 1 10 id =
    process_flight_csvs
      [CsvFile.mk [Row.mk (some "A") (some "F1") 0, Row.mk (some "A") (some "F1") 1]
        none] ["A"] 1 10 List.reverse :=
  ⟨permOracle_id, permOracle_reverse, by decide,
    pipeline_deterministic_without_truncation
      [CsvFile.mk [Row.mk (some "A") (some "F1") 0, Row.mk (some "A") (some "F1") 1]
        none] ["A"] 1 10 id List.reverse permOracle_id permOracle_reverse (by decide)⟩

/-- Witness for the amended C8 at a concrete input: a chunk holding one
row with a missing type next to a typed row, and a one-row collection. -/
theorem missing_field_filter_semantics_witness :
    (processChunk 1 id (initState ["A"])
        ([Row.mk none (some "F0") 5, Row.mk (some "A") (some "F1") 0].filter
          (fun r => decide (r.type ≠ none))) =
      processChunk 1 id (initState ["A"])
        [Row.mk none (some "F0") 5, Row.mk (some "A") (some "F1") 0]) ∧
    (∀ r ∈ collect_flight_data [CsvFile.mk [Row.mk (some "A") (some "F1") 0] none]
        [("A", [some "F1"])] 1,
      r.flight_id ∈ allTargetIds [("A", [some "F1"])]) :=
  missing_field_filter_semantics 1 id (initState ["A"])
    [Row.mk none (some "F0") 5, Row.mk (some "A") (some "F1") 0]
    [CsvFile.mk [Row.mk (some "A") (some "F1") 0] none] [("A", [some "F1"])] 1

end FlightData
